import Mathlib

/-!
Shallow embedding of the Stone-Soup tracking components under verification:
the Kalman-family smoothers (stonesoup/smoother/kalman.py), the track
initiators (stonesoup/initiator/simple.py), the platform attribute proxy
(stonesoup/platform/base.py) and, modelled from the spec, the particle
updater weight normalisation (stonesoup/updater/particle.py, present in the
repository only through its tests).

Conventions: Python floats are embedded as exact rationals, numpy arrays as
Mathlib matrices over ℚ indexed by Fin, Python exceptions as an Except monad
over an error type, and Python object identity (used by set membership) as an
explicit numeric id field. Externally supplied collaborators (transition and
measurement models, the cubature rule, the data associator, deleter, updater
and inner initiator) are parameters of the embedded functions, as the spec
declares them external.
-/

open scoped Matrix

namespace StoneSoup

/-- Python exceptions raised by the embedded code paths. -/
inductive PyErr : Type where
  | valueError
  | typeError
  | attributeError
  | linAlgError
  | indexError
  | notImplementedError
  | exception
deriving DecidableEq, Repr

instance {e a : Type _} [DecidableEq e] [DecidableEq a] :
    DecidableEq (Except e a) := fun x y =>
  match x, y with
  | .ok v, .ok w => if h : v = w then .isTrue (by rw [h]) else .isFalse (by simp [h])
  | .error v, .error w => if h : v = w then .isTrue (by rw [h]) else .isFalse (by simp [h])
  | .ok _, .error _ => .isFalse (by simp)
  | .error _, .ok _ => .isFalse (by simp)

/-- Square matrix over exact rationals, standing for a numpy array. -/
abbrev Mat (n : ℕ) : Type := Matrix (Fin n) (Fin n) ℚ

/-- Column state vector (an n-by-1 numpy array). -/
abbrev Vec (n : ℕ) : Type := Matrix (Fin n) (Fin 1) ℚ

/-- External linear-Gaussian transition-model collaborator
(..models.transition.linear). It supplies the transition matrix F via
matrix(time_interval) and the propagation function(state, time_interval);
the claims under proof depend only on which model object is selected, never
on its time dependence, so a constant matrix instance of the interface is
embedded. islin records whether the object is a LinearModel instance. -/
structure TModel (n : ℕ) : Type where
  islin : Bool
  F : Mat n
deriving DecidableEq

/-- The model's matrix(time_interval) method. -/
def TModel.matrix {n : ℕ} (tm : TModel n) (_time_interval : Int) : Mat n :=
  tm.F

/-- The model's function(state, time_interval) method (noise omitted, as the
smoother calls it noiselessly through partial application). -/
def TModel.function {n : ℕ} (tm : TModel n) (x : Vec n) (_time_interval : Int) : Vec n :=
  tm.F * x

/-- Data of a GaussianStatePrediction as consumed by the smoother: object
identity, mean, covariance, and the optionally attached transition model
(the transition_model attribute, default None). -/
structure PredInfo (n : ℕ) : Type where
  pid : ℕ
  state_vector : Vec n
  covar : Mat n
  transition_model : Option (TModel n)
deriving DecidableEq

/-- Hypothesis attached to an Update state: a SingleHypothesis carries one
prediction; a MultipleHypothesis is a sequence of single hypotheses, of
which only the predictions are consumed by the smoother. -/
inductive Hyp (n : ℕ) : Type where
  | single (pred : PredInfo n)
  | multiple (preds : List (PredInfo n))
deriving DecidableEq

/-- A Gaussian track state. pid models Python object identity; isPred,
isUpd and isGaussian model the isinstance checks against Prediction, Update
and GaussianState; hypothesis is present on updates; transition_model is
the attribute read by getattr on predictions. -/
structure GState (n : ℕ) : Type where
  pid : ℕ
  state_vector : Vec n
  covar : Mat n
  timestamp : Int
  isPred : Bool
  isUpd : Bool
  isGaussian : Bool
  hypothesis : Option (Hyp n)
  transition_model : Option (TModel n)
deriving DecidableEq

/-- The prediction data a prediction state itself denotes. -/
def GState.predOf {n : ℕ} (s : GState n) : PredInfo n :=
  ⟨s.pid, s.state_vector, s.covar, s.transition_model⟩

/-- A Track: identity, metadata and the mutable state sequence. -/
structure Track (n : ℕ) : Type where
  id : ℕ
  metadata : ℕ
  states : List (GState n)
deriving DecidableEq

/-- The linear Kalman smoother object: its only configuration is the static
transition model (KalmanSmoother.transition_model Property). -/
structure KalmanSmoother (n : ℕ) : Type where
  transition_model : TModel n
deriving DecidableEq

/-- KalmanSmoother._prediction: return the predicted state, from the
prediction directly, or from the attached hypothesis if the queried state
is an Update; a MultipleHypothesis must carry exactly one distinct
prediction object (Python set identity, dedup by pid) else ValueError;
anything that is neither a Gaussian prediction nor a Gaussian update raises
TypeError. An update whose hypothesis attribute is missing surfaces the
AttributeError of the attribute access. -/
def KalmanSmoother._prediction {n : ℕ} (state : GState n) :
    Except PyErr (PredInfo n) :=
  if state.isPred && state.isGaussian then
    .ok state.predOf
  else if state.isUpd && state.isGaussian then
    match state.hypothesis with
    | some (.multiple hyps) =>
      match hyps, (hyps.map (·.pid)).dedup with
      | p :: _, [_] => .ok p
      | _, _ => .error .valueError
    | some (.single p) => .ok p
    | none => .error .attributeError
  else
    .error .typeError

/-- KalmanSmoother._transition_model: prefer the transition model attached
to the object passed in (the code does getattr(prediction,
"transition_model", None)); else the smoother's static one. The argument
here is the transition_model attribute of whichever object the caller
passes: the base and unscented gains pass the prediction's, the
stochastic-integration gain passes the queried state's. -/
def KalmanSmoother._transition_model {n : ℕ} (sm : KalmanSmoother n)
    (attached : Option (TModel n)) : TModel n :=
  match attached with
  | some tm => tm
  | none => sm.transition_model

/-- Signature of np.linalg.inv, an external numpy collaborator passed as a
parameter: it errors (LinAlgError) on a singular matrix and otherwise
returns the inverse; the claims under proof do not depend on its values. -/
abbrev NpInv (n : ℕ) : Type := Mat n → Except PyErr (Mat n)

/-- KalmanSmoother._transition_matrix: the model's matrix(**kwargs). -/
def KalmanSmoother._transition_matrix {n : ℕ} (_state : GState n)
    (transition_model : TModel n) (time_interval : Int) : Mat n :=
  transition_model.matrix time_interval

/-- KalmanSmoother._smooth_gain:
state.covar @ F.T @ inv(prediction.covar). -/
def KalmanSmoother._smooth_gain {n : ℕ} (sm : KalmanSmoother n)
    (inv : NpInv n) (state : GState n) (prediction : PredInfo n)
    (time_interval : Int) : Except PyErr (Mat n) :=
  match inv prediction.covar with
  | .error e => .error e
  | .ok Pinv =>
    .ok (state.covar *
      (KalmanSmoother._transition_matrix state
        (sm._transition_model prediction.transition_model) time_interval)ᵀ * Pinv)

/-- type(state).from_state(state, smooth_mean, smooth_covar): a fresh object
of the same concrete type with the state vector and covariance replaced and
every other attribute (timestamp, hypothesis, flags) copied over. -/
def GState.from_state {n : ℕ} (state : GState n) (mean : Vec n)
    (covar : Mat n) : GState n :=
  { state with state_vector := mean, covar := covar }

/-- One backward step of KalmanSmoother.smooth's loop body, parameterised
over the (dynamically dispatched) _smooth_gain method. -/
def smoothStep {n : ℕ}
    (gain : GState n → PredInfo n → Int → Except PyErr (Mat n))
    (state subsq_state : GState n) : Except PyErr (GState n) :=
  let time_interval := subsq_state.timestamp - state.timestamp
  match KalmanSmoother._prediction subsq_state with
  | .error e => .error e
  | .ok prediction =>
    match gain state prediction time_interval with
    | .error e => .error e
    | .ok ksmooth_gain =>
      let smooth_mean := state.state_vector +
        ksmooth_gain * (subsq_state.state_vector - prediction.state_vector)
      let smooth_covar := state.covar +
        ksmooth_gain * (subsq_state.covar - prediction.covar) * ksmooth_gainᵀ
      .ok (state.from_state smooth_mean smooth_covar)

/-- The backward loop of KalmanSmoother.smooth: iterate over the reversed
slice, threading the freshly smoothed state as the new subsequent state and
prepending each result onto the accumulator (smoothed_states.insert(0, .)). -/
def smoothLoop {n : ℕ}
    (gain : GState n → PredInfo n → Int → Except PyErr (Mat n)) :
    List (GState n) → GState n → List (GState n) →
    Except PyErr (List (GState n))
  | [], _, acc => .ok acc
  | state :: rest, subsq_state, acc =>
    match smoothStep gain state subsq_state with
    | .error e => .error e
    | .ok s' => smoothLoop gain rest s' (s' :: acc)

/-- KalmanSmoother.smooth, parameterised over the dispatched _smooth_gain so
that the one driver covers the linear, extended, unscented and
stochastic-integration subclasses (which override only the gain). An empty
track raises IndexError at track[0]. -/
def smoothWith {n : ℕ}
    (gain : GState n → PredInfo n → Int → Except PyErr (Mat n))
    (track : Track n) : Except PyErr (Track n) :=
  match track.states with
  | [] => .error .indexError
  | s0 :: rest =>
    let start : ℕ :=
      match KalmanSmoother._prediction s0 with
      | .ok _ => 0
      | .error _ => 1
    let subsq_state := (s0 :: rest).getLast (by simp)
    let body := (track.states.drop start).dropLast
    match smoothLoop gain body.reverse subsq_state [subsq_state] with
    | .error e => .error e
    | .ok smoothed_states =>
      let smoothed_states :=
        if start = 1 then s0 :: smoothed_states else smoothed_states
      .ok { track with states := smoothed_states }

/-- KalmanSmoother.smooth proper: the driver with the linear gain. -/
def KalmanSmoother.smooth {n : ℕ} (sm : KalmanSmoother n) (inv : NpInv n)
    (track : Track n) : Except PyErr (Track n) :=
  smoothWith (sm._smooth_gain inv) track

/-- The extended Kalman smoother: same configuration, overrides only
_transition_matrix (Jacobian linearisation for nonlinear models). -/
structure ExtendedKalmanSmoother (n : ℕ) extends KalmanSmoother n
deriving DecidableEq

/-- Signature of the external jacobian(linearisation_point, **kwargs) method
of a nonlinear transition model. -/
abbrev Jacobian (n : ℕ) : Type := TModel n → Vec n → Int → Mat n

/-- ExtendedKalmanSmoother._transition_matrix: the model matrix if the model
is a LinearModel, else the Jacobian at the linearisation point, which
defaults to the current state. -/
def ExtendedKalmanSmoother._transition_matrix {n : ℕ} (jac : Jacobian n)
    (state : GState n) (transition_model : TModel n)
    (linearisation_point : Option (GState n)) (time_interval : Int) : Mat n :=
  if transition_model.islin then
    transition_model.matrix time_interval
  else
    jac transition_model
      (linearisation_point.getD state).state_vector time_interval

/-- ExtendedKalmanSmoother inherits _smooth_gain from the base class; only
the transition matrix computation differs. The transition model is still
resolved from the prediction. -/
def ExtendedKalmanSmoother._smooth_gain {n : ℕ}
    (sm : ExtendedKalmanSmoother n) (jac : Jacobian n) (inv : NpInv n)
    (state : GState n) (prediction : PredInfo n) (time_interval : Int) :
    Except PyErr (Mat n) :=
  match inv prediction.covar with
  | .error e => .error e
  | .ok Pinv =>
    .ok (state.covar *
      (ExtendedKalmanSmoother._transition_matrix jac state
        (sm.toKalmanSmoother._transition_model prediction.transition_model)
        none time_interval)ᵀ * Pinv)

/-- The unscented Kalman smoother configuration. -/
structure UnscentedKalmanSmoother (n : ℕ) extends KalmanSmoother n where
  alpha : ℚ
  beta : ℚ
  kappa : ℚ
deriving DecidableEq

/-- UnscentedKalmanSmoother._smooth_gain: the cross covariance of the
sigma-point propagation of the transition function (resolved from the
prediction, partially applied to the time interval) times the inverse of
the prediction covariance. gauss2sigma and unscented_transform are external
collaborators from ..functions, abstracted over their intermediate
sigma-point representation a. -/
def UnscentedKalmanSmoother._smooth_gain {n : ℕ} {a : Type}
    (sm : UnscentedKalmanSmoother n) (gauss2sigma : GState n → ℚ → ℚ → ℚ → a)
    (unscented_transform : a → (Vec n → Vec n) → Mat n) (inv : NpInv n)
    (state : GState n) (prediction : PredInfo n) (time_interval : Int) :
    Except PyErr (Mat n) :=
  let transition_function := fun x =>
    (sm.toKalmanSmoother._transition_model prediction.transition_model).function
      x time_interval
  let sigma_points := gauss2sigma state sm.alpha sm.beta sm.kappa
  let cross_covar := unscented_transform sigma_points transition_function
  match inv prediction.covar with
  | .error e => .error e
  | .ok Pinv => .ok (cross_covar * Pinv)

/-- The stochastic integration smoother configuration: iteration bounds,
convergence threshold and integration order. -/
structure StochasticIntegrationSmoother (n : ℕ) extends KalmanSmoother n where
  Nmax : ℕ
  Nmin : ℕ
  Eps : ℚ
  SIorder : ℕ
deriving DecidableEq

/-- Mutable state of the SIR recursion: the running cross-covariance IPxx
and the running variance-of-increments VPxx. -/
structure SIRState (n : ℕ) : Type where
  IPxx : Mat n
  VPxx : Mat n
deriving DecidableEq

/-- np.linalg.norm(V) greater than eps, expressed exactly over the
rationals by comparing squares of the Frobenius norm (for eps below 0 the
comparison is always true since the norm is nonnegative). -/
def frobNormGt {n : ℕ} (V : Mat n) (eps : ℚ) : Bool :=
  if eps < 0 then true
  else decide (eps ^ 2 < ∑ i : Fin n, ∑ j : Fin n, V i j ^ 2)

/-- Signature of the external cub_points_and_tf collaborator: given the
iteration index (standing for the random draw), the integration order, the
Cholesky factor, the filtering mean, the transition function and the
prediction, produce the transformed cubature points as a list of
(xpoint, weight, fpoint) triples. -/
abbrev CubPoints (n : ℕ) : Type :=
  ℕ → ℕ → Mat n → Vec n → (Vec n → Vec n) → PredInfo n →
    List (Vec n × ℚ × Vec n)

/-- One iteration of the SIR recursion body, with N the incremented
iteration counter: SumRPxx is the weighted sum of outer products of the
point deviations; DPxx = (SumRPxx - IPxx)/N updates the running mean IPxx
and the running variance VPxx = (N-2)*VPxx/N + DPxx**2 (elementwise). -/
def sirBodyStep {n : ℕ} (pts : List (Vec n × ℚ × Vec n))
    (filtMean predMean : Vec n) (N : ℕ) (st : SIRState n) : SIRState n :=
  let SumRPxx :=
    (pts.map fun pwf =>
      pwf.2.1 • ((pwf.1 - filtMean) * (pwf.2.2 - predMean)ᵀ)).sum
  let DPxx := ((N : ℚ))⁻¹ • (SumRPxx - st.IPxx)
  { IPxx := st.IPxx + DPxx
    VPxx := (((N : ℚ) - 2) / (N : ℚ)) • st.VPxx +
      Matrix.of fun i j => DPxx i j ^ 2 }

/-- The SIR while loop: continue while N below Nmin, or N below Nmax with
the norm of VPxx above Eps; each iteration increments N first and then
runs the body at the incremented N. -/
def StochasticIntegrationSmoother.sirLoop {n : ℕ}
    (sm : StochasticIntegrationSmoother n) (step : ℕ → SIRState n → SIRState n)
    (N : ℕ) (st : SIRState n) : ℕ × SIRState n :=
  if h : N < sm.Nmin ∨ (N < sm.Nmax ∧ frobNormGt st.VPxx sm.Eps = true) then
    sm.sirLoop step (N + 1) (step (N + 1) st)
  else (N, st)
termination_by max sm.Nmin sm.Nmax - N
decreasing_by rcases h with h | ⟨h, _⟩ <;> omega

/-- StochasticIntegrationSmoother._smooth_gain: the SIR estimate of the
predictive cross covariance times the inverse of the prediction covariance.
np.linalg.cholesky and cub_points_and_tf are external collaborators passed
as parameters. Note the transition model is resolved from the queried
state, not from the prediction. -/
def StochasticIntegrationSmoother._smooth_gain {n : ℕ}
    (sm : StochasticIntegrationSmoother n) (chol : Mat n → Mat n)
    (cub : CubPoints n) (inv : NpInv n) (state : GState n)
    (prediction : PredInfo n) (time_interval : Int) : Except PyErr (Mat n) :=
  let predMean := prediction.state_vector
  let filtMean := state.state_vector
  let filtVar := state.covar
  let transition_function := fun x =>
    (sm.toKalmanSmoother._transition_model state.transition_model).function
      x time_interval
  let efMean := filtMean
  let efVar := filtVar
  let Sf := chol efVar
  let step := fun N st =>
    sirBodyStep (cub N sm.SIorder Sf efMean transition_function prediction)
      filtMean predMean N st
  let Pxxps := (sm.sirLoop step 0 ⟨0, 0⟩).2.IPxx
  match inv prediction.covar with
  | .error e => .error e
  | .ok Pinv => .ok (Pxxps * Pinv)

/-! Claim C5: resolution of the prediction associated with a state. -/

/-- C5: for every state queried during smoothing, _prediction returns the
state itself when it is a Gaussian prediction; when it is a Gaussian update
whose hypothesis is a MultipleHypothesis it returns the unique prediction
if all hypotheses share a single prediction object and raises ValueError
when they carry two or more distinct predictions; any state that is
neither a Gaussian prediction nor a Gaussian update raises TypeError. -/
theorem prediction_resolution {n : ℕ} (s : GState n) :
    ((s.isPred && s.isGaussian) = true →
      KalmanSmoother._prediction s = .ok s.predOf) ∧
    (∀ l p, (s.isPred && s.isGaussian) = false →
      (s.isUpd && s.isGaussian) = true →
      s.hypothesis = some (.multiple l) →
      (l.map (·.pid)).dedup = [p] →
      ∃ pr ∈ l, KalmanSmoother._prediction s = .ok pr) ∧
    (∀ l, (s.isPred && s.isGaussian) = false →
      (s.isUpd && s.isGaussian) = true →
      s.hypothesis = some (.multiple l) →
      2 ≤ (l.map (·.pid)).dedup.length →
      KalmanSmoother._prediction s = .error .valueError) ∧
    ((s.isPred && s.isGaussian) = false →
      (s.isUpd && s.isGaussian) = false →
      KalmanSmoother._prediction s = .error .typeError) := by
  refine ⟨?_, ?_, ?_, ?_⟩
  · intro h
    simp [KalmanSmoother._prediction, h]
  · intro l p h1 h2 hh hd
    cases l with
    | nil => simp at hd
    | cons q rest =>
      refine ⟨q, by simp, ?_⟩
      simp only [KalmanSmoother._prediction, h1, h2, hh, hd]
      simp
  · intro l h1 h2 hh hd
    simp only [KalmanSmoother._prediction, h1, h2, hh]
    simp only [Bool.false_eq_true, if_false, if_true]
    cases l with
    | nil => rfl
    | cons q rest =>
      rcases hdd : ((q :: rest).map (·.pid)).dedup with _ | ⟨a, _ | ⟨b, t⟩⟩
      · rw [hdd]
      · rw [hdd] at hd; simp at hd
      · rw [hdd]
  · intro h1 h2
    simp [KalmanSmoother._prediction, h1, h2]

/-- Concrete prediction data shared by the C5 witness states. -/
def predA : PredInfo 1 := ⟨5, !![2], !![3], none⟩

/-- Concrete prediction data with a different object identity. -/
def predB : PredInfo 1 := ⟨6, !![4], !![5], none⟩

/-- Gaussian prediction state for the C5 witness. -/
def stPred : GState 1 := ⟨0, !![1], !![1], 0, true, false, true, none, none⟩

/-- Gaussian update whose MultipleHypothesis shares one prediction. -/
def stUpdOne : GState 1 :=
  ⟨1, !![1], !![1], 0, false, true, true, some (.multiple [predA, predA]), none⟩

/-- Gaussian update whose MultipleHypothesis carries two predictions. -/
def stUpdTwo : GState 1 :=
  ⟨2, !![1], !![1], 0, false, true, true, some (.multiple [predA, predB]), none⟩

/-- A state that is neither a Gaussian prediction nor a Gaussian update. -/
def stOther : GState 1 := ⟨3, !![1], !![1], 0, false, false, false, none, none⟩

/-- Witness for C5: the four branches evaluated at concrete states. -/
theorem prediction_resolution_witness :
    KalmanSmoother._prediction stPred = .ok stPred.predOf ∧
    (∃ pr ∈ [predA, predA], KalmanSmoother._prediction stUpdOne = .ok pr) ∧
    KalmanSmoother._prediction stUpdTwo = .error .valueError ∧
    KalmanSmoother._prediction stOther = .error .typeError :=
  ⟨(prediction_resolution stPred).1 (by decide),
   (prediction_resolution stUpdOne).2.1 [predA, predA] 5 (by decide) (by decide)
     rfl (by decide),
   (prediction_resolution stUpdTwo).2.2.1 [predA, predB] (by decide) (by decide)
     rfl (by decide),
   (prediction_resolution stOther).2.2.2 (by decide) (by decide)⟩

/-! Claim C1: shape preservation of the smoothed track. -/

/-- A successful smoothing step preserves every attribute of the state
except the state vector and covariance (from_state copies them over). -/
theorem smoothStep_fields {n : ℕ}
    {gain : GState n → PredInfo n → Int → Except PyErr (Mat n)}
    {s t s' : GState n} (h : smoothStep gain s t = .ok s') :
    s'.timestamp = s.timestamp ∧ s'.pid = s.pid ∧ s'.isPred = s.isPred ∧
    s'.isUpd = s.isUpd ∧ s'.isGaussian = s.isGaussian ∧
    s'.hypothesis = s.hypothesis ∧ s'.transition_model = s.transition_model := by
  unfold smoothStep at h
  cases hp : KalmanSmoother._prediction t with
  | error e => rw [hp] at h; dsimp only [] at h; exact absurd h (by simp)
  | ok p =>
    rw [hp] at h
    dsimp only [] at h
    cases hg : gain s p (t.timestamp - s.timestamp) with
    | error e => rw [hg] at h; exact absurd h (by simp)
    | ok G =>
      rw [hg] at h
      dsimp only [] at h
      rw [Except.ok.injEq] at h
      subst h
      simp [GState.from_state]

/-- The backward loop produces the accumulator extended on the left by one
new state per input state, whose timestamps are those of the reversed
input. -/
theorem smoothLoop_shape {n : ℕ}
    (gain : GState n → PredInfo n → Int → Except PyErr (Mat n)) :
    ∀ (l : List (GState n)) (subsq : GState n) (acc out : List (GState n)),
      smoothLoop gain l subsq acc = .ok out →
      ∃ pre, out = pre ++ acc ∧
        pre.map (·.timestamp) = (l.map (·.timestamp)).reverse := by
  intro l
  induction l with
  | nil =>
    intro subsq acc out h
    refine ⟨[], ?_, by simp⟩
    simpa [smoothLoop] using h.symm
  | cons s rest ih =>
    intro subsq acc out h
    unfold smoothLoop at h
    cases hs : smoothStep gain s subsq with
    | error e => rw [hs] at h; simp [Except.bind] at h
    | ok s' =>
      rw [hs] at h
      simp only [Except.bind] at h
      obtain ⟨pre, hout, hts⟩ := ih s' (s' :: acc) out h
      refine ⟨pre ++ [s'], by simpa using hout, ?_⟩
      simp [hts, (smoothStep_fields hs).1]

/-- C1 (amended): for every track with at least two states, or a
single-state track whose state has a resolvable prediction, a successful
smooth returns a track of the same length with pointwise equal timestamps
and the same final state, and when the first state has no resolvable
prediction it is passed through unmodified at index 0. The amendment
excludes the single-state track with unresolvable prediction, where the
code returns that state twice. -/
theorem smooth_track_shape {n : ℕ}
    (gain : GState n → PredInfo n → Int → Except PyErr (Mat n))
    (tr t' : Track n) (s0 : GState n) (rest : List (GState n))
    (hs : tr.states = s0 :: rest)
    (hgood : rest ≠ [] ∨ (KalmanSmoother._prediction s0).isOk = true)
    (h : smoothWith gain tr = .ok t') :
    t'.states.length = tr.states.length ∧
    t'.states.map (·.timestamp) = tr.states.map (·.timestamp) ∧
    t'.states.getLast? = tr.states.getLast? ∧
    ((KalmanSmoother._prediction s0).isOk = false →
      t'.states.head? = some s0) := by
  unfold smoothWith at h
  rw [hs] at h
  dsimp only [] at h
  cases hp : KalmanSmoother._prediction s0 with
  | ok p =>
    rw [hp] at h
    dsimp only [] at h
    simp only [List.drop_zero] at h
    split at h
    · exact absurd h (by simp)
    next sm hl =>
      rw [Except.ok.injEq] at h
      obtain ⟨pre, hout, hts⟩ := smoothLoop_shape gain _ _ _ _ hl
      have hpre : pre.map (·.timestamp) =
          ((s0 :: rest).dropLast).map (·.timestamp) := by
        simpa [List.map_reverse] using hts
      have hds : (s0 :: rest).dropLast ++ [(s0 :: rest).getLast (by simp)] =
          s0 :: rest := List.dropLast_append_getLast (by simp)
      have hsm : sm.map (·.timestamp) = (s0 :: rest).map (·.timestamp) := by
        rw [hout, List.map_append, hpre]
        calc ((s0 :: rest).dropLast).map (·.timestamp) ++
              [((s0 :: rest).getLast (by simp)).timestamp]
            = (((s0 :: rest).dropLast) ++
                [(s0 :: rest).getLast (by simp)]).map (·.timestamp) := by
              simp
          _ = (s0 :: rest).map (·.timestamp) := by rw [hds]
      have ht' : t'.states = sm := by rw [← h]; simp
      refine ⟨?_, ?_, ?_, ?_⟩
      · rw [ht', hs]
        have := congrArg List.length hsm
        simpa using this
      · rw [ht', hs]; exact hsm
      · rw [ht', hs, hout]
        rw [List.getLast?_concat]
        exact (List.getLast?_eq_getLast (s0 :: rest) (by simp)).symm
      · intro hfalse
        simp [Except.isOk, Except.toBool] at hfalse
  | error e =>
    rw [hp] at h
    dsimp only [] at h
    have hrest : rest ≠ [] := by
      rcases hgood with hne | hok
      · exact hne
      · rw [hp] at hok; simp [Except.isOk, Except.toBool] at hok
    split at h
    · exact absurd h (by simp)
    next sm hl =>
      rw [Except.ok.injEq] at h
      obtain ⟨pre, hout, hts⟩ := smoothLoop_shape gain _ _ _ _ hl
      have hpre : pre.map (·.timestamp) = (rest.dropLast).map (·.timestamp) := by
        simpa [List.map_reverse] using hts
      have hglast : (s0 :: rest).getLast (by simp) = rest.getLast hrest :=
        List.getLast_cons hrest
      have hds : rest.dropLast ++ [rest.getLast hrest] = rest :=
        List.dropLast_append_getLast hrest
      have hsm : sm.map (·.timestamp) = rest.map (·.timestamp) := by
        rw [hout, List.map_append, hpre, hglast]
        calc (rest.dropLast).map (·.timestamp) ++ [(rest.getLast hrest).timestamp]
            = ((rest.dropLast) ++ [rest.getLast hrest]).map (·.timestamp) := by
              simp
          _ = rest.map (·.timestamp) := by rw [hds]
      have ht' : t'.states = s0 :: sm := by rw [← h]; simp
      refine ⟨?_, ?_, ?_, ?_⟩
      · rw [ht', hs]
        have := congrArg List.length hsm
        simpa using this
      · rw [ht', hs]
        simpa using hsm
      · rw [ht', hs, hout]
        have hprep : s0 :: (pre ++ [(s0 :: rest).getLast (by simp)]) =
            (s0 :: pre) ++ [(s0 :: rest).getLast (by simp)] := by simp
        rw [hprep, List.getLast?_concat]
        exact (List.getLast?_eq_getLast (s0 :: rest) (by simp)).symm
      · intro _
        rw [ht']
        rfl


/-- A state that is neither a prediction nor an update, as an unconditioned
prior at the head of a track. -/
def cexState : GState 1 := ⟨0, !![1], !![1], 0, false, false, false, none, none⟩

/-- A single-state track holding only the unconditioned prior. -/
def cexTrack : Track 1 := ⟨0, 0, [cexState]⟩

/-- A concrete linear smoother for the counterexample. -/
def cexSmoother : KalmanSmoother 1 := ⟨⟨true, 1⟩⟩

/-- A concrete matrix-inverse collaborator (never consulted on this input). -/
def cexInv : NpInv 1 := fun _ => .ok 1

/-- Counterexample to C1 as stated: smoothing the non-empty single-state
track whose state has no resolvable prediction returns a track with that
state twice, so the output length is 2 while the input length is 1 (and the
timestamps are not pointwise equal to the input's). -/
theorem smooth_singleton_duplicates :
    cexSmoother.smooth cexInv cexTrack = .ok ⟨0, 0, [cexState, cexState]⟩ ∧
    cexTrack.states.length = 1 := by decide

/-- Gain collaborator used by the smoother shape witnesses. -/
def wGain : GState 1 → PredInfo 1 → Int → Except PyErr (Mat 1) :=
  fun _ _ _ => .ok 0

/-- First (earlier) state of the witness track. -/
def wPrev : GState 1 := ⟨10, !![1], !![1], 5, true, false, true, none, none⟩

/-- Final state of the witness track, a Gaussian prediction. -/
def wLast : GState 1 := ⟨11, !![3], !![2], 10, true, false, true, none, none⟩

/-- Two-state witness track. -/
def wTrack : Track 1 := ⟨7, 3, [wPrev, wLast]⟩

/-- Witness for the amended C1: a concrete two-state track is smoothed
successfully and the shape conclusions hold for it. -/
theorem smooth_track_shape_witness :
    smoothWith wGain wTrack = .ok wTrack ∧
    wTrack.states.map (·.timestamp) = wTrack.states.map (·.timestamp) ∧
    wTrack.states.getLast? = wTrack.states.getLast? := by
  have hW : smoothWith wGain wTrack = .ok wTrack := by
    simp [smoothWith, wTrack, smoothLoop, smoothStep, wGain,
      KalmanSmoother._prediction, wPrev, wLast, GState.from_state,
      GState.predOf, Matrix.transpose_zero]
  have hconc := smooth_track_shape wGain wTrack wTrack wPrev [wLast] rfl
    (Or.inl (by simp)) hW
  exact ⟨hW, hconc.2.1, hconc.2.2.1⟩

/-! Claim C9: smooth returns a shallow copy; the input is not modified. -/

/-- C9: the smoothed track is the shallow copy of the input with only the
states attribute replaced: its id and metadata are those of the input. The
embedding is purely functional, so the input track and its state objects
are unmodified by construction; from_state builds fresh states rather than
mutating (smoothStep_fields records which attributes it copies). -/
theorem smooth_shallow_copy {n : ℕ}
    (gain : GState n → PredInfo n → Int → Except PyErr (Mat n))
    (tr t' : Track n) (h : smoothWith gain tr = .ok t') :
    t'.id = tr.id ∧ t'.metadata = tr.metadata := by
  unfold smoothWith at h
  cases hs : tr.states with
  | nil => rw [hs] at h; exact absurd h (by simp)
  | cons s0 rest =>
    rw [hs] at h
    dsimp only [] at h
    cases hp : KalmanSmoother._prediction s0 with
    | ok p =>
      rw [hp] at h
      dsimp only [] at h
      split at h
      · exact absurd h (by simp)
      next sm hl =>
        rw [Except.ok.injEq] at h
        exact ⟨by rw [← h], by rw [← h]⟩
    | error e =>
      rw [hp] at h
      dsimp only [] at h
      split at h
      · exact absurd h (by simp)
      next sm hl =>
        rw [Except.ok.injEq] at h
        exact ⟨by rw [← h], by rw [← h]⟩

/-- Witness track for the shallow-copy claim, with distinctive id and
metadata. -/
def wTrack2 : Track 1 := ⟨21, 42, [wPrev, wLast]⟩

/-- Witness for C9: a concrete successful smooth whose output keeps the
input's id and metadata. -/
theorem smooth_shallow_copy_witness :
    smoothWith wGain wTrack2 = .ok wTrack2 ∧
    wTrack2.id = wTrack2.id ∧ wTrack2.metadata = wTrack2.metadata := by
  have hW : smoothWith wGain wTrack2 = .ok wTrack2 := by
    simp [smoothWith, wTrack2, smoothLoop, smoothStep, wGain,
      KalmanSmoother._prediction, wPrev, wLast, GState.from_state,
      GState.predOf, Matrix.transpose_zero]
  exact ⟨hW, smooth_shallow_copy wGain wTrack2 wTrack2 hW⟩

/-! Claim C4: iteration policy of the stochastic-integration recursion. -/

/-- The state of the SIR recursion after M iterations of the body (the
body receives the incremented counter, as in the loop). -/
def iterStep {n : ℕ} (step : ℕ → SIRState n → SIRState n) (st0 : SIRState n) :
    ℕ → SIRState n
  | 0 => st0
  | M + 1 => step (M + 1) (iterStep step st0 M)

/-- The SIR loop result depends only on the Nmin, Nmax and Eps
configuration fields. -/
theorem sirLoop_congr {n : ℕ} (sm1 sm2 : StochasticIntegrationSmoother n)
    (h1 : sm1.Nmin = sm2.Nmin) (h2 : sm1.Nmax = sm2.Nmax)
    (h3 : sm1.Eps = sm2.Eps) (step : ℕ → SIRState n → SIRState n) :
    ∀ (fuel N : ℕ) (st : SIRState n), max sm1.Nmin sm1.Nmax - N ≤ fuel →
      sm1.sirLoop step N st = sm2.sirLoop step N st := by
  intro fuel
  induction fuel with
  | zero =>
    intro N st hf
    have hno : ¬(N < sm1.Nmin ∨ (N < sm1.Nmax ∧
        frobNormGt st.VPxx sm1.Eps = true)) := by
      rintro (hlt | ⟨hlt, _⟩) <;> omega
    have hno2 : ¬(N < sm2.Nmin ∨ (N < sm2.Nmax ∧
        frobNormGt st.VPxx sm2.Eps = true)) := by
      rw [← h1, ← h2, ← h3]; exact hno
    have e1 : sm1.sirLoop step N st = (N, st) := by
      rw [StochasticIntegrationSmoother.sirLoop]; exact dif_neg hno
    have e2 : sm2.sirLoop step N st = (N, st) := by
      rw [StochasticIntegrationSmoother.sirLoop]; exact dif_neg hno2
    rw [e1, e2]
  | succ f ih =>
    intro N st hf
    by_cases hc : N < sm1.Nmin ∨ (N < sm1.Nmax ∧ frobNormGt st.VPxx sm1.Eps = true)
    · have hc2 : N < sm2.Nmin ∨ (N < sm2.Nmax ∧
          frobNormGt st.VPxx sm2.Eps = true) := by
        rw [← h1, ← h2, ← h3]; exact hc
      have e1 : sm1.sirLoop step N st = sm1.sirLoop step (N + 1) (step (N + 1) st) := by
        rw [StochasticIntegrationSmoother.sirLoop]; exact dif_pos hc
      have e2 : sm2.sirLoop step N st = sm2.sirLoop step (N + 1) (step (N + 1) st) := by
        rw [StochasticIntegrationSmoother.sirLoop]; exact dif_pos hc2
      rw [e1, e2]
      exact ih (N + 1) _ (by rcases hc with hlt | ⟨hlt, _⟩ <;> omega)
    · have hc2 : ¬(N < sm2.Nmin ∨ (N < sm2.Nmax ∧
          frobNormGt st.VPxx sm2.Eps = true)) := by
        rw [← h1, ← h2, ← h3]; exact hc
      have e1 : sm1.sirLoop step N st = (N, st) := by
        rw [StochasticIntegrationSmoother.sirLoop]; exact dif_neg hc
      have e2 : sm2.sirLoop step N st = (N, st) := by
        rw [StochasticIntegrationSmoother.sirLoop]; exact dif_neg hc2
      rw [e1, e2]

/-- Fuel-indexed specification of the SIR loop started at iteration N with
the state reached after N body iterations: the final count never decreases,
is bounded by the iteration caps, carries the iterated state, satisfies the
negated loop condition, and is minimal (the loop condition held at every
earlier count). -/
theorem sirLoop_spec_aux {n : ℕ} (sm : StochasticIntegrationSmoother n)
    (step : ℕ → SIRState n → SIRState n) (st0 : SIRState n) :
    ∀ (fuel N : ℕ), max sm.Nmin sm.Nmax - N ≤ fuel →
      N ≤ (sm.sirLoop step N (iterStep step st0 N)).1 ∧
      (sm.sirLoop step N (iterStep step st0 N)).1 ≤ max (max sm.Nmin sm.Nmax) N ∧
      (sm.sirLoop step N (iterStep step st0 N)).2 =
        iterStep step st0 (sm.sirLoop step N (iterStep step st0 N)).1 ∧
      ¬((sm.sirLoop step N (iterStep step st0 N)).1 < sm.Nmin ∨
        ((sm.sirLoop step N (iterStep step st0 N)).1 < sm.Nmax ∧
          frobNormGt (iterStep step st0
            (sm.sirLoop step N (iterStep step st0 N)).1).VPxx sm.Eps = true)) ∧
      (∀ M, N ≤ M → M < (sm.sirLoop step N (iterStep step st0 N)).1 →
        M < sm.Nmin ∨ (M < sm.Nmax ∧
          frobNormGt (iterStep step st0 M).VPxx sm.Eps = true)) := by
  intro fuel
  induction fuel with
  | zero =>
    intro N hf
    have hno : ¬(N < sm.Nmin ∨ (N < sm.Nmax ∧
        frobNormGt (iterStep step st0 N).VPxx sm.Eps = true)) := by
      rintro (hlt | ⟨hlt, _⟩) <;> omega
    rw [StochasticIntegrationSmoother.sirLoop, dif_neg hno]
    refine ⟨le_refl N, ?_, rfl, hno, ?_⟩
    · exact le_max_right _ _
    · intro M hNM hMlt
      exact absurd (lt_of_le_of_lt hNM hMlt) (lt_irrefl N)
  | succ f ih =>
    intro N hf
    rw [StochasticIntegrationSmoother.sirLoop]
    by_cases hc : N < sm.Nmin ∨ (N < sm.Nmax ∧
        frobNormGt (iterStep step st0 N).VPxx sm.Eps = true)
    · rw [dif_pos hc]
      have hstep : step (N + 1) (iterStep step st0 N) = iterStep step st0 (N + 1) := rfl
      rw [hstep]
      have hfuel : max sm.Nmin sm.Nmax - (N + 1) ≤ f := by
        rcases hc with hlt | ⟨hlt, _⟩ <;> omega
      obtain ⟨ha, hb, hcst, hd, he⟩ := ih (N + 1) hfuel
      refine ⟨by omega, by omega, hcst, hd, ?_⟩
      intro M hNM hMlt
      rcases Nat.eq_or_lt_of_le hNM with hEq | hlt2
      · subst hEq; exact hc
      · exact he M hlt2 hMlt
    · rw [dif_neg hc]
      refine ⟨le_refl N, le_max_right _ _, rfl, hc, ?_⟩
      intro M hNM hMlt
      exact absurd (lt_of_le_of_lt hNM hMlt) (lt_irrefl N)

/-- C4: the SIR loop inside StochasticIntegrationSmoother._smooth_gain runs
at least Nmin iterations regardless of the convergence error, stops as soon
as the count reaches Nmax or the variance norm is not above Eps (the loop
condition held at every earlier count), and always terminates after at most
max(Nmin, Nmax) iterations. -/
theorem sir_iteration_policy {n : ℕ} (sm : StochasticIntegrationSmoother n)
    (step : ℕ → SIRState n → SIRState n) (st0 : SIRState n) :
    sm.Nmin ≤ (sm.sirLoop step 0 st0).1 ∧
    (sm.sirLoop step 0 st0).1 ≤ max sm.Nmin sm.Nmax ∧
    (sm.Nmax ≤ (sm.sirLoop step 0 st0).1 ∨
      frobNormGt (sm.sirLoop step 0 st0).2.VPxx sm.Eps = false) ∧
    (∀ M, M < (sm.sirLoop step 0 st0).1 →
      M < sm.Nmin ∨ (M < sm.Nmax ∧
        frobNormGt (iterStep step st0 M).VPxx sm.Eps = true)) := by
  have h0 : iterStep step st0 0 = st0 := rfl
  obtain ⟨ha, hb, hcst, hd, he⟩ :=
    sirLoop_spec_aux sm step st0 (max sm.Nmin sm.Nmax) 0 (by omega)
  rw [h0] at ha hb hcst hd he
  push_neg at hd
  obtain ⟨hmin, hrest⟩ := hd
  refine ⟨by omega, by simpa using hb, ?_, fun M hM => he M (Nat.zero_le M) hM⟩
  by_cases hmax : sm.Nmax ≤ (sm.sirLoop step 0 st0).1
  · exact Or.inl hmax
  · refine Or.inr ?_
    have := hrest (by omega)
    rw [hcst]
    simpa using this

/-- Concrete stochastic-integration smoother for the C4 witness, with
Nmin = 2 and Nmax = 1. -/
def c4sm : StochasticIntegrationSmoother 1 := ⟨⟨⟨true, 1⟩⟩, 1, 2, 0, 5⟩

/-- Identity loop body for the C4 witness. -/
def c4step : ℕ → SIRState 1 → SIRState 1 := fun _ s => s

/-- Initial loop state for the C4 witness. -/
def c4st : SIRState 1 := ⟨0, 0⟩

/-- Witness for C4: with Nmin = 2 and Nmax = 1 and an identity body, the
loop runs at least Nmin and at most max(Nmin, Nmax) iterations, and the
loop condition held at count 1. -/
theorem sir_iteration_policy_witness :
    c4sm.Nmin ≤ (c4sm.sirLoop c4step 0 c4st).1 ∧
    (c4sm.sirLoop c4step 0 c4st).1 ≤ max c4sm.Nmin c4sm.Nmax ∧
    (1 < c4sm.Nmin ∨ (1 < c4sm.Nmax ∧
      frobNormGt (iterStep c4step c4st 1).VPxx c4sm.Eps = true)) := by
  have e : c4sm.sirLoop c4step 0 c4st = (2, c4step 2 (c4step 1 c4st)) := by
    rw [StochasticIntegrationSmoother.sirLoop,
      dif_pos (Or.inl (show (0 : ℕ) < c4sm.Nmin by norm_num [c4sm]))]
    rw [StochasticIntegrationSmoother.sirLoop,
      dif_pos (Or.inl (show (1 : ℕ) < c4sm.Nmin by norm_num [c4sm]))]
    rw [StochasticIntegrationSmoother.sirLoop, dif_neg]
    rintro (hlt | ⟨hlt, _⟩) <;> simp [c4sm] at hlt
  have h := sir_iteration_policy c4sm c4step c4st
  exact ⟨h.1, h.2.1, h.2.2.2 1 (by rw [e]; norm_num)⟩

/-! Claim C2: which transition model feeds the smoothing gain. -/

/-- The stochastic-integration gain does not depend on the prediction's
attached transition model (nor its identity): predictions equal in mean and
covariance give equal gains whenever the cubature collaborator reads only
the prediction's mean and covariance. -/
theorem stochastic_gain_ignores_prediction_model {n : ℕ}
    (ssm : StochasticIntegrationSmoother n) (chol : Mat n → Mat n)
    (cub : CubPoints n) (inv : NpInv n) (state : GState n)
    (p q : PredInfo n) (ti : Int)
    (hcub : ∀ k o Sf m f (p' q' : PredInfo n),
      p'.state_vector = q'.state_vector → p'.covar = q'.covar →
      cub k o Sf m f p' = cub k o Sf m f q')
    (hsv : p.state_vector = q.state_vector) (hcv : p.covar = q.covar) :
    StochasticIntegrationSmoother._smooth_gain ssm chol cub inv state p ti =
    StochasticIntegrationSmoother._smooth_gain ssm chol cub inv state q ti := by
  unfold StochasticIntegrationSmoother._smooth_gain
  dsimp only []
  have hc : ∀ k f, cub k ssm.SIorder (chol state.covar) state.state_vector f p =
      cub k ssm.SIorder (chol state.covar) state.state_vector f q :=
    fun k f => hcub k _ _ _ f p q hsv hcv
  simp only [hc, hsv, hcv]

/-- C2 (amended): the gain of the linear, extended and unscented smoothers
resolves the transition model from the prediction: a smoother configured
with model A given an unattached prediction computes the same gain as a
smoother configured with any model B given the same prediction carrying A.
The stochastic-integration smoother instead resolves the model from the
state being smoothed (the same exchange law holds for the state's attached
model), and it ignores a model attached to the prediction. -/
theorem gain_transition_model_resolution {n : ℕ} {a : Type}
    (sm : KalmanSmoother n) (usm : UnscentedKalmanSmoother n)
    (ssm : StochasticIntegrationSmoother n) (A B : TModel n)
    (jac : Jacobian n) (g2s : GState n → ℚ → ℚ → ℚ → a)
    (ut : a → (Vec n → Vec n) → Mat n) (chol : Mat n → Mat n)
    (cub : CubPoints n) (inv : NpInv n) (state : GState n)
    (pred : PredInfo n) (ti : Int) :
    (sm._transition_model (some A) = A ∧
      sm._transition_model none = sm.transition_model) ∧
    (KalmanSmoother._smooth_gain ⟨A⟩ inv state
        { pred with transition_model := none } ti =
      KalmanSmoother._smooth_gain ⟨B⟩ inv state
        { pred with transition_model := some A } ti) ∧
    (ExtendedKalmanSmoother._smooth_gain ⟨⟨A⟩⟩ jac inv state
        { pred with transition_model := none } ti =
      ExtendedKalmanSmoother._smooth_gain ⟨⟨B⟩⟩ jac inv state
        { pred with transition_model := some A } ti) ∧
    (UnscentedKalmanSmoother._smooth_gain ⟨⟨A⟩, usm.alpha, usm.beta, usm.kappa⟩
        g2s ut inv state { pred with transition_model := none } ti =
      UnscentedKalmanSmoother._smooth_gain ⟨⟨B⟩, usm.alpha, usm.beta, usm.kappa⟩
        g2s ut inv state { pred with transition_model := some A } ti) ∧
    (StochasticIntegrationSmoother._smooth_gain
        { ssm with toKalmanSmoother := ⟨A⟩ } chol cub inv
        { state with transition_model := none } pred ti =
      StochasticIntegrationSmoother._smooth_gain
        { ssm with toKalmanSmoother := ⟨B⟩ } chol cub inv
        { state with transition_model := some A } pred ti) ∧
    ((∀ k o Sf m f (p' q' : PredInfo n),
        p'.state_vector = q'.state_vector → p'.covar = q'.covar →
        cub k o Sf m f p' = cub k o Sf m f q') →
      StochasticIntegrationSmoother._smooth_gain ssm chol cub inv state
        { pred with transition_model := some A } ti =
      StochasticIntegrationSmoother._smooth_gain ssm chol cub inv state
        { pred with transition_model := none } ti) := by
  refine ⟨⟨rfl, rfl⟩, rfl, rfl, rfl, ?_, ?_⟩
  · unfold StochasticIntegrationSmoother._smooth_gain
    dsimp only []
    cases hi : inv pred.covar with
    | error e => rfl
    | ok Pinv =>
      rw [sirLoop_congr { ssm with toKalmanSmoother := ⟨A⟩ }
        { ssm with toKalmanSmoother := ⟨B⟩ } rfl rfl rfl _
        (max ({ ssm with toKalmanSmoother := ⟨A⟩ } :
          StochasticIntegrationSmoother n).Nmin
          ({ ssm with toKalmanSmoother := ⟨A⟩ } :
            StochasticIntegrationSmoother n).Nmax) 0 ⟨0, 0⟩ (Nat.sub_le _ _)]
      rfl
  · intro hcub
    exact stochastic_gain_ignores_prediction_model ssm chol cub inv state
      _ _ ti hcub rfl rfl

/-- Modelled from the spec: the stochastic-integration gain computation
with the transition model resolved from the prediction, following the spec
sentence "Resolve the transition model: prefer one attached to the
prediction; else fall back to the smoother's configured model" - stated
here only for comparison with StochasticIntegrationSmoother._smooth_gain
above, whose source resolves the model from the queried state instead. -/
def StochasticIntegrationSmoother.smooth_gain_spec_resolution {n : ℕ}
    (sm : StochasticIntegrationSmoother n) (chol : Mat n → Mat n)
    (cub : CubPoints n) (inv : NpInv n) (state : GState n)
    (prediction : PredInfo n) (time_interval : Int) : Except PyErr (Mat n) :=
  let predMean := prediction.state_vector
  let filtMean := state.state_vector
  let filtVar := state.covar
  let transition_function := fun x =>
    (sm.toKalmanSmoother._transition_model prediction.transition_model).function
      x time_interval
  let efMean := filtMean
  let efVar := filtVar
  let Sf := chol efVar
  let step := fun N st =>
    sirBodyStep (cub N sm.SIorder Sf efMean transition_function prediction)
      filtMean predMean N st
  let Pxxps := (sm.sirLoop step 0 ⟨0, 0⟩).2.IPxx
  match inv prediction.covar with
  | .error e => .error e
  | .ok Pinv => .ok (Pxxps * Pinv)

/-- Stochastic smoother configured with transition matrix 3, one SIR
iteration. -/
def c2sm : StochasticIntegrationSmoother 1 := ⟨⟨⟨true, !![3]⟩⟩, 1, 1, 0, 5⟩

/-- Transition model with matrix 2, attached to the prediction. -/
def c2A : TModel 1 := ⟨true, !![2]⟩

/-- Queried state with no attached transition model. -/
def c2state : GState 1 := ⟨0, !![0], !![1], 0, true, false, true, none, none⟩

/-- Prediction carrying the transition model c2A. -/
def c2pred : PredInfo 1 := ⟨1, !![0], !![1], some c2A⟩

/-- Concrete Cholesky collaborator. -/
def c2chol : Mat 1 → Mat 1 := fun m => m

/-- Concrete cubature collaborator applying the transition function at a
fixed point. -/
def c2cub : CubPoints 1 := fun _ _ _ _ f _ => [(f !![1], (1 : ℚ), f !![1])]

/-- Concrete inverse collaborator. -/
def c2inv : NpInv 1 := fun _ => .ok 1

/-- Counterexample to C2 as stated: with a transition model of matrix 2
attached to the prediction and a configured model of matrix 3, the
stochastic-integration gain is computed from the configured model (value 9),
not from the prediction-attached model (value 4): the implementation
differs from the spec-mandated prediction-first resolution at this input. -/
theorem stochastic_gain_resolution_counterexample :
    StochasticIntegrationSmoother._smooth_gain c2sm c2chol c2cub c2inv
      c2state c2pred 1 = .ok !![9] ∧
    StochasticIntegrationSmoother.smooth_gain_spec_resolution c2sm c2chol
      c2cub c2inv c2state c2pred 1 = .ok !![4] ∧
    StochasticIntegrationSmoother._smooth_gain c2sm c2chol c2cub c2inv
      c2state c2pred 1 ≠
    StochasticIntegrationSmoother.smooth_gain_spec_resolution c2sm c2chol
      c2cub c2inv c2state c2pred 1 := by
  have hB : StochasticIntegrationSmoother._smooth_gain c2sm c2chol c2cub c2inv
      c2state c2pred 1 = .ok !![9] := by
    unfold StochasticIntegrationSmoother._smooth_gain
    dsimp only [c2sm, c2state, c2pred, c2chol, c2cub, c2inv]
    rw [StochasticIntegrationSmoother.sirLoop, dif_pos (Or.inl (by norm_num))]
    rw [StochasticIntegrationSmoother.sirLoop,
      dif_neg (by rintro (h | ⟨h, _⟩) <;> norm_num at h)]
    simp [sirBodyStep, TModel.function, KalmanSmoother._transition_model]
    ext i j
    fin_cases i
    fin_cases j
    simp [Matrix.mul_apply, Fin.sum_univ_one, Matrix.vecHead]
    norm_num
  have hA : StochasticIntegrationSmoother.smooth_gain_spec_resolution c2sm
      c2chol c2cub c2inv c2state c2pred 1 = .ok !![4] := by
    unfold StochasticIntegrationSmoother.smooth_gain_spec_resolution
    dsimp only [c2sm, c2state, c2pred, c2chol, c2cub, c2inv]
    rw [StochasticIntegrationSmoother.sirLoop, dif_pos (Or.inl (by norm_num))]
    rw [StochasticIntegrationSmoother.sirLoop,
      dif_neg (by rintro (h | ⟨h, _⟩) <;> norm_num at h)]
    simp [sirBodyStep, TModel.function, KalmanSmoother._transition_model, c2A]
    ext i j
    fin_cases i
    fin_cases j
    simp [Matrix.mul_apply, Fin.sum_univ_one, Matrix.vecHead]
    norm_num
  refine ⟨hB, hA, ?_⟩
  rw [hB, hA]
  intro heq
  rw [Except.ok.injEq] at heq
  have h00 := congrFun (congrFun heq 0) 0
  simp [Matrix.cons_val_zero] at h00

/-- A cubature collaborator that ignores all of its arguments, used by the
C2 witness to discharge the prediction-independence hypothesis. -/
def c2cub0 : CubPoints 1 := fun _ _ _ _ _ _ => []

/-- Witness for the amended C2: the base-gain exchange law and the
stochastic prediction-independence evaluated at concrete inputs. -/
theorem gain_transition_model_resolution_witness :
    (KalmanSmoother._smooth_gain ⟨c2A⟩ c2inv c2state
        { c2pred with transition_model := none } 1 =
      KalmanSmoother._smooth_gain ⟨⟨true, !![3]⟩⟩ c2inv c2state
        { c2pred with transition_model := some c2A } 1) ∧
    (StochasticIntegrationSmoother._smooth_gain c2sm c2chol c2cub0 c2inv
        c2state { c2pred with transition_model := some c2A } 1 =
      StochasticIntegrationSmoother._smooth_gain c2sm c2chol c2cub0 c2inv
        c2state { c2pred with transition_model := none } 1) := by
  have h := gain_transition_model_resolution (a := Unit) ⟨c2A⟩
    ⟨⟨c2A⟩, 0, 0, 0⟩ c2sm c2A ⟨true, !![3]⟩ (fun _ _ _ => 0)
    (fun _ _ _ _ => ()) (fun _ _ => 0) c2chol c2cub0 c2inv c2state c2pred 1
  exact ⟨h.2.1, h.2.2.2.2.2 (fun _ _ _ _ _ _ _ _ _ => rfl)⟩

/-! Claim C3: the multi-measurement confirmation gate. -/

/-- Kind of the measurement model attached to a detection, as tested by the
isinstance checks against LinearModel and ReversibleModel (nomodel stands
for a detection whose measurement_model is None). -/
inductive MKind : Type where
  | linear
  | reversible
  | other
  | nomodel
deriving DecidableEq

/-- A detection as consumed by the multi-measurement initiator: identity
and the kind of its attached measurement model (its numeric payload never
influences the gating logic under proof, which is carried out by the
external associator, updater and inner initiator). -/
structure Det : Type where
  did : ℕ
  modelKind : MKind
deriving DecidableEq

/-- A state held in an initiator track: whether it is an Update instance
(predictions appended on missed association are not), plus identity. -/
structure IState : Type where
  isUpd : Bool
  sid : ℕ
deriving DecidableEq

/-- A track held by the multi-measurement initiator. -/
structure ITrack : Type where
  tid : ℕ
  states : List IState
deriving DecidableEq

/-- Configuration of MultiMeasurementInitiator: the confirmation threshold,
whether only Update states count, and the non-reversible-model filter. The
prior state, deleter, associator, updater and inner initiator are external
collaborators passed to initiate. -/
structure MultiMeasurementInitiator : Type where
  min_points : ℕ
  updates_only : Bool
  skip_non_reversible : Bool
deriving DecidableEq

/-- The promotion count: sum(1 for state in track if not updates_only or
isinstance(state, Update)). -/
def qualifying (cfg : MultiMeasurementInitiator) (t : ITrack) : ℕ :=
  (t.states.filter (fun s => !cfg.updates_only || s.isUpd)).length

/-- The optional filter on detections whose model is neither linear nor
reversible (isinstance against (ReversibleModel, LinearModel)). -/
def MultiMeasurementInitiator.filteredDets (cfg : MultiMeasurementInitiator)
    (detections : List Det) : List Det :=
  if cfg.skip_non_reversible then
    detections.filter (fun d =>
      decide (d.modelKind = .reversible ∨ d.modelKind = .linear))
  else detections

/-- Per-track association step: on a real association append the updated
state and record the consumed detection; on a missed association append the
hypothesis prediction. assoc models the external data associator (None
standing for a falsy hypothesis), updSt the external updater.update, predSt
the appended hypothesis.prediction. -/
def appendStateFor (assoc : ITrack → Option Det) (updSt : ITrack → Det → IState)
    (predSt : ITrack → IState) (t : ITrack) : ITrack × Option Det :=
  match assoc t with
  | some d => ({ t with states := t.states ++ [updSt t d] }, some d)
  | none => ({ t with states := t.states ++ [predSt t] }, none)

/-- All holding tracks after this call's association appends, paired with
the detection each consumed. -/
def processedOf (assoc : ITrack → Option Det) (updSt : ITrack → Det → IState)
    (predSt : ITrack → IState) (holding : List ITrack) :
    List (ITrack × Option Det) :=
  holding.map (appendStateFor assoc updSt predSt)

/-- The tracks promoted to sure on this call: qualifying count at least
min_points. -/
def sureOf (cfg : MultiMeasurementInitiator) (assoc : ITrack → Option Det)
    (updSt : ITrack → Det → IState) (predSt : ITrack → IState)
    (holding : List ITrack) : List ITrack :=
  ((processedOf assoc updSt predSt holding).map (·.1)).filter
    (fun t => decide (cfg.min_points ≤ qualifying cfg t))

/-- The tracks kept in holding after promotion (before the deleter runs). -/
def remainingOf (cfg : MultiMeasurementInitiator) (assoc : ITrack → Option Det)
    (updSt : ITrack → Det → IState) (predSt : ITrack → IState)
    (holding : List ITrack) : List ITrack :=
  ((processedOf assoc updSt predSt holding).map (·.1)).filter
    (fun t => decide (¬ cfg.min_points ≤ qualifying cfg t))

/-- MultiMeasurementInitiator.initiate: filter detections, associate and
append states on held tracks, promote tracks reaching min_points, prune the
remaining holding tracks through the external deleter, seed new holding
tracks from unconsumed detections through the wrapped initiator, and return
only the newly confirmed tracks (the new holding set is the second
component of the result, standing for the mutated holding_tracks field). -/
def MultiMeasurementInitiator.initiate (cfg : MultiMeasurementInitiator)
    (assoc : ITrack → Option Det) (updSt : ITrack → Det → IState)
    (predSt : ITrack → IState) (delete : List ITrack → List ITrack)
    (seed : List Det → List ITrack) (holding : List ITrack)
    (detections : List Det) : List ITrack × List ITrack :=
  let detections := cfg.filteredDets detections
  if holding.isEmpty then
    ([], seed detections)
  else
    let associated := (processedOf assoc updSt predSt holding).filterMap (·.2)
    let sure := sureOf cfg assoc updSt predSt holding
    let remaining := remainingOf cfg assoc updSt predSt holding
    let afterDelete := remaining.filter
      (fun t => decide (t ∉ delete remaining))
    (sure, afterDelete ++ seed (detections.filter (fun d => decide (d ∉ associated))))

/-- The association append preserves the track identity. -/
theorem appendStateFor_tid (assoc : ITrack → Option Det)
    (updSt : ITrack → Det → IState) (predSt : ITrack → IState) (h : ITrack) :
    ((appendStateFor assoc updSt predSt h).1).tid = h.tid := by
  unfold appendStateFor
  cases assoc h <;> rfl

/-- The association append adds exactly one state. -/
theorem appendStateFor_len (assoc : ITrack → Option Det)
    (updSt : ITrack → Det → IState) (predSt : ITrack → IState) (h : ITrack) :
    ((appendStateFor assoc updSt predSt h).1).states.length =
      h.states.length + 1 := by
  unfold appendStateFor
  cases assoc h <;> simp

/-- Membership in the processed holding set comes from a held track. -/
theorem mem_processed_iff (assoc : ITrack → Option Det)
    (updSt : ITrack → Det → IState) (predSt : ITrack → IState)
    (holding : List ITrack) (t : ITrack) :
    t ∈ (processedOf assoc updSt predSt holding).map (·.1) ↔
    ∃ h ∈ holding, (appendStateFor assoc updSt predSt h).1 = t := by
  simp [processedOf]

/-- C3: on every call of MultiMeasurementInitiator.initiate, a holding
track is released as confirmed only when its count of qualifying states
reaches min_points; every confirmed track is a held track extended by one
state on this call and leaves the holding set; a held track the deleter
rejects is dropped from holding and never returned as confirmed; and the
surviving tentative tracks persist in the holding set, while only the newly
confirmed tracks are returned. Seeded tracks are assumed to carry fresh
identities (the wrapped initiator constructs new Track objects). -/
theorem multi_measurement_gate (cfg : MultiMeasurementInitiator)
    (assoc : ITrack → Option Det) (updSt : ITrack → Det → IState)
    (predSt : ITrack → IState) (delete : List ITrack → List ITrack)
    (seed : List Det → List ITrack) (holding : List ITrack)
    (detections : List Det)
    (hfresh : ∀ ds t, t ∈ seed ds → ∀ h ∈ holding, t.tid ≠ h.tid) :
    (∀ t ∈ (cfg.initiate assoc updSt predSt delete seed holding detections).1,
      cfg.min_points ≤ qualifying cfg t) ∧
    (∀ t ∈ (cfg.initiate assoc updSt predSt delete seed holding detections).1,
      ∃ h ∈ holding, t.tid = h.tid ∧
        t.states.length = h.states.length + 1) ∧
    (∀ t ∈ (cfg.initiate assoc updSt predSt delete seed holding detections).1,
      t ∉ (cfg.initiate assoc updSt predSt delete seed holding detections).2) ∧
    (∀ t ∈ remainingOf cfg assoc updSt predSt holding,
      t ∈ delete (remainingOf cfg assoc updSt predSt holding) →
      t ∉ (cfg.initiate assoc updSt predSt delete seed holding detections).1 ∧
      t ∉ (cfg.initiate assoc updSt predSt delete seed holding detections).2) ∧
    (∀ t ∈ remainingOf cfg assoc updSt predSt holding,
      t ∉ delete (remainingOf cfg assoc updSt predSt holding) →
      t ∈ (cfg.initiate assoc updSt predSt delete seed holding detections).2) := by
  have hsure_mem : ∀ t ∈ sureOf cfg assoc updSt predSt holding,
      cfg.min_points ≤ qualifying cfg t := by
    intro t ht
    have := (List.mem_filter.mp ht).2
    exact of_decide_eq_true this
  have hsure_src : ∀ t ∈ sureOf cfg assoc updSt predSt holding,
      ∃ h ∈ holding, t.tid = h.tid ∧ t.states.length = h.states.length + 1 := by
    intro t ht
    have hm := (List.mem_filter.mp ht).1
    obtain ⟨h, hh, heq⟩ := (mem_processed_iff assoc updSt predSt holding t).mp hm
    exact ⟨h, hh, by rw [← heq, appendStateFor_tid],
      by rw [← heq, appendStateFor_len]⟩
  have hrem_src : ∀ t ∈ remainingOf cfg assoc updSt predSt holding,
      ∃ h ∈ holding, t.tid = h.tid := by
    intro t ht
    have hm := (List.mem_filter.mp ht).1
    obtain ⟨h, hh, heq⟩ := (mem_processed_iff assoc updSt predSt holding t).mp hm
    exact ⟨h, hh, by rw [← heq, appendStateFor_tid]⟩
  have hrem_not : ∀ t ∈ remainingOf cfg assoc updSt predSt holding,
      ¬ cfg.min_points ≤ qualifying cfg t := by
    intro t ht
    exact of_decide_eq_true (List.mem_filter.mp ht).2
  by_cases hemp : holding = []
  · subst hemp
    refine ⟨?_, ?_, ?_, ?_, ?_⟩ <;>
      simp [MultiMeasurementInitiator.initiate, remainingOf, processedOf]
  · have hinit : cfg.initiate assoc updSt predSt delete seed holding detections =
        (sureOf cfg assoc updSt predSt holding,
         (remainingOf cfg assoc updSt predSt holding).filter
           (fun t => decide (t ∉ delete (remainingOf cfg assoc updSt predSt holding))) ++
         seed ((cfg.filteredDets detections).filter
           (fun d => decide (d ∉ (processedOf assoc updSt predSt holding).filterMap (·.2))))) := by
      unfold MultiMeasurementInitiator.initiate
      rw [if_neg (by simpa [List.isEmpty_iff] using hemp)]
    rw [hinit]
    refine ⟨hsure_mem, hsure_src, ?_, ?_, ?_⟩
    · intro t ht hmem
      rcases List.mem_append.mp hmem with hdel | hseed
      · have hrem := List.mem_filter.mp hdel
        exact hrem_not t hrem.1 (hsure_mem t ht)
      · obtain ⟨h, hh, htid, _⟩ := hsure_src t ht
        exact hfresh _ t hseed h hh htid
    · intro t ht hdel
      constructor
      · intro hsure
        exact hrem_not t ht (hsure_mem t hsure)
      · intro hmem
        rcases List.mem_append.mp hmem with hkeep | hseed
        · have := (List.mem_filter.mp hkeep).2
          exact of_decide_eq_true this hdel
        · obtain ⟨h, hh, htid⟩ := hrem_src t ht
          exact hfresh _ t hseed h hh htid
    · intro t ht hdel
      exact List.mem_append.mpr (Or.inl (List.mem_filter.mpr
        ⟨ht, decide_eq_true hdel⟩))

/-- Concrete configuration for the gate witness: two qualifying update
states confirm a track. -/
def c3cfg : MultiMeasurementInitiator := ⟨2, true, false⟩

/-- A held track with one update state. -/
def c3t1 : ITrack := ⟨1, [⟨true, 0⟩]⟩

/-- Concrete associator: every track associates with detection 5. -/
def c3assoc : ITrack → Option Det := fun _ => some ⟨5, .linear⟩

/-- Concrete updater output. -/
def c3updSt : ITrack → Det → IState := fun _ _ => ⟨true, 9⟩

/-- Concrete prediction appended on a missed association. -/
def c3predSt : ITrack → IState := fun _ => ⟨false, 8⟩

/-- Concrete deleter that deletes nothing. -/
def c3delete : List ITrack → List ITrack := fun _ => []

/-- Concrete inner initiator that seeds nothing. -/
def c3seed : List Det → List ITrack := fun _ => []

/-- Witness for C3: on a concrete call the held track reaches min_points,
is confirmed with a qualifying count of at least min_points, and the
returned set is exactly the newly confirmed track. -/
theorem multi_measurement_gate_witness :
    (∀ t ∈ (c3cfg.initiate c3assoc c3updSt c3predSt c3delete c3seed [c3t1]
        [⟨5, .linear⟩]).1, c3cfg.min_points ≤ qualifying c3cfg t) ∧
    (c3cfg.initiate c3assoc c3updSt c3predSt c3delete c3seed [c3t1]
        [⟨5, .linear⟩]).1 = [⟨1, [⟨true, 0⟩, ⟨true, 9⟩]⟩] := by
  refine ⟨(multi_measurement_gate c3cfg c3assoc c3updSt c3predSt c3delete
    c3seed [c3t1] [⟨5, .linear⟩]
    (fun ds t ht => absurd ht (by simp [c3seed]))).1, by decide⟩

/-- Counterexample to C8 as stated: the multi-measurement initiator returns
a confirmed track containing two states, not exactly one initial state. -/
theorem multi_initiator_two_state_counterexample :
    (c3cfg.initiate c3assoc c3updSt c3predSt c3delete c3seed [c3t1]
        [⟨5, .linear⟩]).1 = [⟨1, [⟨true, 0⟩, ⟨true, 9⟩]⟩] ∧
    (⟨1, [⟨true, 0⟩, ⟨true, 9⟩]⟩ : ITrack).states.length ≠ 1 := by decide

/-! Claims C7 and C8: the simple and single-point initiators. -/

/-- External measurement-model collaborator: kind records the isinstance
checks against LinearModel and ReversibleModel; H is matrix(), R is
covar(), mapping the addressed state dimensions; inverse_function returns
none where the Python method raises NotImplementedError; jacobian is
re-evaluated at the inverted point for reversible models. -/
structure MModel (m n : ℕ) : Type where
  kind : MKind
  H : Matrix (Fin m) (Fin n) ℚ
  R : Matrix (Fin m) (Fin m) ℚ
  mapping : List (Fin n)
  inverse_function : Matrix (Fin m) (Fin 1) ℚ → Option (Matrix (Fin n) (Fin 1) ℚ)
  jacobian : Matrix (Fin n) (Fin 1) ℚ → Matrix (Fin m) (Fin n) ℚ

/-- A detection consumed by the measurement initiators. -/
structure SMIDet (m n : ℕ) : Type where
  did : ℕ
  state_vector : Matrix (Fin m) (Fin 1) ℚ
  timestamp : Int
  measurement_model : Option (MModel m n)

/-- The single initial Update state of an initiated track; detection
records the identity of the detection in SingleHypothesis(None, detection). -/
structure SMIState (n : ℕ) : Type where
  state_vector : Matrix (Fin n) (Fin 1) ℚ
  covar : Mat n
  timestamp : Int
  detection : ℕ
deriving DecidableEq

/-- A track as produced by the measurement initiators. -/
structure SMITrack (n : ℕ) : Type where
  states : List (SMIState n)
deriving DecidableEq

/-- SimpleMeasurementInitiator configuration: the prior state, an optional
configured measurement model, the skip flag and the diagonal loading. -/
structure SimpleMeasurementInitiator (m n : ℕ) : Type where
  prior_state_vector : Matrix (Fin n) (Fin 1) ℚ
  prior_covar : Mat n
  measurement_model : Option (MModel m n)
  skip_non_reversible : Bool
  diag_load : ℚ

/-- SimpleMeasurementInitiator.__init__: construction fails with ValueError
when diag_load is below 0. -/
def SimpleMeasurementInitiator.init {m n : ℕ}
    (prior_state_vector : Matrix (Fin n) (Fin 1) ℚ) (prior_covar : Mat n)
    (measurement_model : Option (MModel m n)) (skip_non_reversible : Bool)
    (diag_load : ℚ) : Except PyErr (SimpleMeasurementInitiator m n) :=
  if diag_load < 0 then .error .valueError
  else .ok ⟨prior_state_vector, prior_covar, measurement_model,
    skip_non_reversible, diag_load⟩

/-- Signature of np.linalg.pinv, an external numpy collaborator. -/
abbrev NpPinv (m n : ℕ) : Type :=
  Matrix (Fin m) (Fin n) ℚ → Matrix (Fin n) (Fin m) ℚ

/-- prior_covar with the rows of the mapped dimensions set to 0
(prior_covar[mapped_dimensions, :] = 0). -/
def zeroRows {n : ℕ} (A : Mat n) (mapping : List (Fin n)) : Mat n :=
  Matrix.of fun i j => if i ∈ mapping then 0 else A i j

/-- prior_state_vector with the mapped dimensions set to 0. -/
def zeroRowsVec {n : ℕ} (v : Matrix (Fin n) (Fin 1) ℚ)
    (mapping : List (Fin n)) : Matrix (Fin n) (Fin 1) ℚ :=
  Matrix.of fun i j => if i ∈ mapping then 0 else v i j

/-- Resolve the measurement model: the detection's own, else the
initiator's configured one, else ValueError. -/
def SimpleMeasurementInitiator.resolvedModel {m n : ℕ}
    (ini : SimpleMeasurementInitiator m n) (d : SMIDet m n) :
    Except PyErr (MModel m n) :=
  match d.measurement_model with
  | some mm => .ok mm
  | none =>
    match ini.measurement_model with
    | some mm => .ok mm
    | none => .error .valueError

/-- The state constructed for one detection (initiator lines 213-230): the
measurement covariance propagated through the inverse matrix, plus the
prior covariance zeroed on the mapped rows, plus the diagonal loading. -/
def SimpleMeasurementInitiator.buildState {m n : ℕ}
    (ini : SimpleMeasurementInitiator m n) (mm : MModel m n)
    (inv_model_matrix : Matrix (Fin n) (Fin m) ℚ)
    (state_vector : Matrix (Fin n) (Fin 1) ℚ) (d : SMIDet m n) : SMIState n :=
  let model_covar := mm.R
  let prior_state_vector := zeroRowsVec ini.prior_state_vector mm.mapping
  let prior_covar := zeroRows ini.prior_covar mm.mapping
  let C0 := inv_model_matrix * model_covar * inv_model_matrixᵀ
  let C0 := C0 + prior_covar + Matrix.diagonal (fun _ => ini.diag_load)
  ⟨prior_state_vector + state_vector, C0, d.timestamp, d.did⟩

/-- Process one detection: linear models use the pseudo-inverse of the
model matrix; reversible models invert the detection and linearise the
Jacobian there, skipping or raising on NotImplementedError; any other
model is skipped or raises as configured. none stands for a skipped
detection (the loop's continue). -/
def SimpleMeasurementInitiator.initiateDet {m n : ℕ}
    (ini : SimpleMeasurementInitiator m n) (pinv : NpPinv m n)
    (d : SMIDet m n) : Except PyErr (Option (SMIState n)) :=
  match ini.resolvedModel d with
  | .error e => .error e
  | .ok mm =>
    match mm.kind with
    | .linear =>
      let inv_model_matrix := pinv mm.H
      .ok (some (ini.buildState mm inv_model_matrix
        (inv_model_matrix * d.state_vector) d))
    | .reversible =>
      match mm.inverse_function d.state_vector with
      | none =>
        if ini.skip_non_reversible then .ok none
        else .error .notImplementedError
      | some state_vector =>
        let inv_model_matrix := pinv (mm.jacobian state_vector)
        .ok (some (ini.buildState mm inv_model_matrix state_vector d))
    | _ =>
      if ini.skip_non_reversible then .ok none
      else .error .exception

/-- SimpleMeasurementInitiator.initiate over the detection set; a raised
exception aborts the whole call. -/
def SimpleMeasurementInitiator.initiate {m n : ℕ}
    (ini : SimpleMeasurementInitiator m n) (pinv : NpPinv m n) :
    List (SMIDet m n) → Except PyErr (List (SMITrack n))
  | [] => .ok []
  | d :: rest =>
    match ini.initiateDet pinv d with
    | .error e => .error e
    | .ok none => ini.initiate pinv rest
    | .ok (some st) =>
      match ini.initiate pinv rest with
      | .error e => .error e
      | .ok tracks => .ok (⟨[st]⟩ :: tracks)

/-- SinglePointInitiator.initiate: one measurement update of the prior per
detection, through the external updater upd, each yielding a one-state
track. -/
def SinglePointInitiator.initiate {m n : ℕ} (upd : SMIDet m n → SMIState n)
    (detections : List (SMIDet m n)) : List (SMITrack n) :=
  detections.map (fun d => ⟨[upd d]⟩)

/-- A successfully initiated state records the detection's identity and
timestamp. -/
theorem initiateDet_detection {m n : ℕ}
    (ini : SimpleMeasurementInitiator m n) (pinv : NpPinv m n)
    (d : SMIDet m n) (st : SMIState n)
    (h : ini.initiateDet pinv d = .ok (some st)) :
    st.detection = d.did ∧ st.timestamp = d.timestamp := by
  unfold SimpleMeasurementInitiator.initiateDet at h
  cases hr : ini.resolvedModel d with
  | error e => rw [hr] at h; exact absurd h (by simp)
  | ok mm =>
    rw [hr] at h
    dsimp only [] at h
    cases hk : mm.kind <;> rw [hk] at h <;> dsimp only [] at h
    · rw [Except.ok.injEq, Option.some.injEq] at h
      rw [← h]; exact ⟨rfl, rfl⟩
    · cases hi : mm.inverse_function d.state_vector with
      | none =>
        rw [hi] at h
        cases hs : ini.skip_non_reversible <;>
          rw [hs] at h <;> simp at h
      | some sv =>
        rw [hi] at h
        rw [Except.ok.injEq, Option.some.injEq] at h
        rw [← h]; exact ⟨rfl, rfl⟩
    · cases hs : ini.skip_non_reversible <;> rw [hs] at h <;> simp at h
    · cases hs : ini.skip_non_reversible <;> rw [hs] at h <;> simp at h

/-- C7: constructing a SimpleMeasurementInitiator with diag_load below 0
fails with ValueError (and succeeds otherwise); with diag_load equal to 0,
every initiated state's covariance is exactly the measurement covariance
propagated through the inverse matrix plus the prior covariance zeroed on
the mapped rows, with no diagonal loading term added. -/
theorem diag_load_policy {m n : ℕ}
    (prior_state_vector : Matrix (Fin n) (Fin 1) ℚ) (prior_covar : Mat n)
    (measurement_model : Option (MModel m n)) (skip_non_reversible : Bool)
    (dl : ℚ) (ini : SimpleMeasurementInitiator m n) (pinv : NpPinv m n)
    (d : SMIDet m n) (st : SMIState n) :
    (dl < 0 → SimpleMeasurementInitiator.init prior_state_vector prior_covar
      measurement_model skip_non_reversible dl = .error .valueError) ∧
    (0 ≤ dl → SimpleMeasurementInitiator.init prior_state_vector prior_covar
      measurement_model skip_non_reversible dl =
      .ok ⟨prior_state_vector, prior_covar, measurement_model,
        skip_non_reversible, dl⟩) ∧
    (ini.diag_load = 0 → ini.initiateDet pinv d = .ok (some st) →
      ∃ (mm : MModel m n) (iM : Matrix (Fin n) (Fin m) ℚ),
        ini.resolvedModel d = .ok mm ∧
        st.covar = iM * mm.R * iMᵀ + zeroRows ini.prior_covar mm.mapping) := by
  refine ⟨?_, ?_, ?_⟩
  · intro hdl
    unfold SimpleMeasurementInitiator.init
    rw [if_pos hdl]
  · intro hdl
    unfold SimpleMeasurementInitiator.init
    rw [if_neg (by exact not_lt.mpr hdl)]
  · intro hdl h
    unfold SimpleMeasurementInitiator.initiateDet at h
    cases hr : ini.resolvedModel d with
    | error e => rw [hr] at h; exact absurd h (by simp)
    | ok mm =>
      rw [hr] at h
      dsimp only [] at h
      have hdiag : Matrix.diagonal (fun _ : Fin n => ini.diag_load) = 0 := by
        rw [hdl]
        exact Matrix.diagonal_zero
      cases hk : mm.kind <;> rw [hk] at h <;> dsimp only [] at h
      · rw [Except.ok.injEq, Option.some.injEq] at h
        refine ⟨mm, pinv mm.H, rfl, ?_⟩
        rw [← h]
        unfold SimpleMeasurementInitiator.buildState
        dsimp only []
        rw [hdiag, add_zero]
      · cases hi : mm.inverse_function d.state_vector with
        | none =>
          rw [hi] at h
          cases hs : ini.skip_non_reversible <;>
            rw [hs] at h <;> simp at h
        | some sv =>
          rw [hi] at h
          rw [Except.ok.injEq, Option.some.injEq] at h
          refine ⟨mm, pinv (mm.jacobian sv), rfl, ?_⟩
          rw [← h]
          unfold SimpleMeasurementInitiator.buildState
          dsimp only []
          rw [hdiag, add_zero]
      · cases hs : ini.skip_non_reversible <;> rw [hs] at h <;> simp at h
      · cases hs : ini.skip_non_reversible <;> rw [hs] at h <;> simp at h

/-- SinglePointMeasurementInitiator configuration (simple.py lines 74-81):
the prior state, an optional configured measurement model and the
skip-non-reversible flag; the updater is an external collaborator. -/
structure SinglePointMeasurementInitiator (m n : ℕ) : Type where
  prior_state_vector : Matrix (Fin n) (Fin 1) ℚ
  prior_covar : Mat n
  measurement_model : Option (MModel m n)
  skip_non_reversible : Bool

/-- Resolve the measurement model for the single-point-measurement
initiator (lines 100-107): the detection's own, else the configured one,
else ValueError. -/
def SinglePointMeasurementInitiator.resolvedModel {m n : ℕ}
    (ini : SinglePointMeasurementInitiator m n) (d : SMIDet m n) :
    Except PyErr (MModel m n) :=
  match d.measurement_model with
  | some mm => .ok mm
  | none =>
    match ini.measurement_model with
    | some mm => .ok mm
    | none => .error .valueError

/-- Signature of the external updater of the single-point-measurement
initiator: updater.update(SingleHypothesis(prior, detection)) receives the
prior with its state vector replaced and the detection, and returns the
posterior mean and covariance. The Update object it constructs carries the
detection and the detection's timestamp in its hypothesis, which the
embedding records in the assembled state. -/
abbrev SPMUpdater (m n : ℕ) : Type :=
  Matrix (Fin n) (Fin 1) ℚ → SMIDet m n → Matrix (Fin n) (Fin 1) ℚ × Mat n

/-- Process one detection (lines 100-138): linear models map the
measurement through the pseudo-inverse of the model matrix; reversible
models invert the detection, skipping or raising on NotImplementedError;
any other model is skipped or raises as configured. The prior's mapped
dimensions are zeroed and replaced by the mapped measurement, and the
external updater produces the single track state. -/
def SinglePointMeasurementInitiator.initiateDet {m n : ℕ}
    (ini : SinglePointMeasurementInitiator m n) (pinv : NpPinv m n)
    (upd : SPMUpdater m n) (d : SMIDet m n) :
    Except PyErr (Option (SMIState n)) :=
  match ini.resolvedModel d with
  | .error e => .error e
  | .ok mm =>
    match mm.kind with
    | .linear =>
      let state_vector := pinv mm.H * d.state_vector
      let prior_state_vector :=
        zeroRowsVec ini.prior_state_vector mm.mapping + state_vector
      let posterior := upd prior_state_vector d
      .ok (some ⟨posterior.1, posterior.2, d.timestamp, d.did⟩)
    | .reversible =>
      match mm.inverse_function d.state_vector with
      | none =>
        if ini.skip_non_reversible then .ok none
        else .error .notImplementedError
      | some state_vector =>
        let prior_state_vector :=
          zeroRowsVec ini.prior_state_vector mm.mapping + state_vector
        let posterior := upd prior_state_vector d
        .ok (some ⟨posterior.1, posterior.2, d.timestamp, d.did⟩)
    | _ =>
      if ini.skip_non_reversible then .ok none
      else .error .exception

/-- SinglePointMeasurementInitiator.initiate: one single-state track per
non-skipped detection; a raised exception aborts the whole call. -/
def SinglePointMeasurementInitiator.initiate {m n : ℕ}
    (ini : SinglePointMeasurementInitiator m n) (pinv : NpPinv m n)
    (upd : SPMUpdater m n) :
    List (SMIDet m n) → Except PyErr (List (SMITrack n))
  | [] => .ok []
  | d :: rest =>
    match ini.initiateDet pinv upd d with
    | .error e => .error e
    | .ok none => ini.initiate pinv upd rest
    | .ok (some st) =>
      match ini.initiate pinv upd rest with
      | .error e => .error e
      | .ok tracks => .ok (⟨[st]⟩ :: tracks)

/-- A state held by a track after a representation-converting initiator
ran (simple.py lines 326-625): the original Gaussian states, or one of the
converted representations each variant constructs for the final state. -/
inductive RepState (n : ℕ) : Type where
  | gaussian (st : SMIState n)
  | particleUpdate (particles : List (Matrix (Fin n) (Fin 1) ℚ)) (weight : ℚ)
      (fixed_covar : Option (Mat n)) (timestamp : Int) (hypothesis : ℕ)
  | gaussianMixtureUpdate (component_state_vector : Matrix (Fin n) (Fin 1) ℚ)
      (component_covar : Mat n) (component_weight : ℚ) (timestamp : Int)
      (hypothesis : Option ℕ)
  | asdUpdate (multi_state_vector : Matrix (Fin n) (Fin 1) ℚ)
      (multi_covar : Mat n) (timestamps : Int) (max_nstep : ℕ)
      (hypothesis : ℕ)
  | ensembleUpdate (ensemble : List (Matrix (Fin n) (Fin 1) ℚ))
      (timestamp : Int) (hypothesis : ℕ)
  | gaussianState (state_vector : Matrix (Fin n) (Fin 1) ℚ) (covar : Mat n)
      (timestamp : Int)
deriving DecidableEq

/-- The timestamp any representation carries. -/
def RepState.timestamp {n : ℕ} : RepState n → Int
  | .gaussian st => st.timestamp
  | .particleUpdate _ _ _ ts _ => ts
  | .gaussianMixtureUpdate _ _ _ ts _ => ts
  | .asdUpdate _ _ ts _ _ => ts
  | .ensembleUpdate _ ts _ => ts
  | .gaussianState _ _ ts => ts

/-- A track produced by a representation-converting initiator. -/
structure RepTrack (n : ℕ) : Type where
  states : List (RepState n)
deriving DecidableEq

/-- Per-track conversion over the wrapped initiator's output, aborting on
the first raised exception. -/
def mapExcept {α β : Type} (f : α → Except PyErr β) :
    List α → Except PyErr (List β)
  | [] => .ok []
  | x :: xs =>
    match f x with
    | .error e => .error e
    | .ok y =>
      match mapExcept f xs with
      | .error e => .error e
      | .ok ys => .ok (y :: ys)

/-- Signature of scipy's multivariate_normal.rvs, the external sampler:
mean, covariance and size give the drawn samples. -/
abbrev MvnRvs (n : ℕ) : Type :=
  Matrix (Fin n) (Fin 1) ℚ → Mat n → ℕ → List (Matrix (Fin n) (Fin 1) ℚ)

/-- GaussianParticleInitiator (lines 326-398): replace the track's final
state (track[-1] of the wrapped Gaussian initiator's output, IndexError on
an empty track) with a ParticleStateUpdate of number_particles samples
drawn around the track's mean and covariance, each of uniform weight
1/number_particles, keeping the track's hypothesis and timestamp. -/
def GaussianParticleInitiator.convertTrack {n : ℕ} (rvs : MvnRvs n)
    (number_particles : ℕ) (use_fixed_covar : Bool) (t : SMITrack n) :
    Except PyErr (RepTrack n) :=
  match t.states.getLast? with
  | none => .error .indexError
  | some st =>
    .ok ⟨(t.states.dropLast.map RepState.gaussian) ++
      [RepState.particleUpdate (rvs st.state_vector st.covar number_particles)
        (1 / (number_particles : ℚ))
        (if use_fixed_covar then some st.covar else none)
        st.timestamp st.detection]⟩

/-- GaussianParticleInitiator.initiate over the wrapped tracks. -/
def GaussianParticleInitiator.initiate {n : ℕ} (rvs : MvnRvs n)
    (number_particles : ℕ) (use_fixed_covar : Bool)
    (tracks : List (SMITrack n)) : Except PyErr (List (RepTrack n)) :=
  mapExcept (GaussianParticleInitiator.convertTrack rvs number_particles
    use_fixed_covar) tracks

/-- GaussianMixtureInitiator (lines 401-461): every state of every wrapped
track is replaced in place by a GaussianMixtureUpdate holding one
unit-weight tagged component with that state's mean, covariance and
timestamp, keeping the state's hypothesis when present. -/
def GaussianMixtureInitiator.initiate {n : ℕ}
    (tracks : List (SMITrack n)) : List (RepTrack n) :=
  tracks.map (fun t => ⟨t.states.map (fun st =>
    RepState.gaussianMixtureUpdate st.state_vector st.covar 1 st.timestamp
      (some st.detection))⟩)

/-- ASDGaussianInitiator (lines 464-524): replace the track's final state
with an ASDGaussianStateUpdate built from the track's mean, covariance and
timestamp. -/
def ASDGaussianInitiator.convertTrack {n : ℕ} (max_nstep : ℕ)
    (t : SMITrack n) : Except PyErr (RepTrack n) :=
  match t.states.getLast? with
  | none => .error .indexError
  | some st =>
    .ok ⟨(t.states.dropLast.map RepState.gaussian) ++
      [RepState.asdUpdate st.state_vector st.covar st.timestamp max_nstep
        st.detection]⟩

/-- ASDGaussianInitiator.initiate over the wrapped tracks. -/
def ASDGaussianInitiator.initiate {n : ℕ} (max_nstep : ℕ)
    (tracks : List (SMITrack n)) : Except PyErr (List (RepTrack n)) :=
  mapExcept (ASDGaussianInitiator.convertTrack max_nstep) tracks

/-- EnsembleInitiator (lines 527-581): replace the track's final state
with an EnsembleStateUpdate of ensemble_size members generated from the
track's mean and covariance by the external generator. -/
def EnsembleInitiator.convertTrack {n : ℕ} (gen : MvnRvs n)
    (ensemble_size : ℕ) (t : SMITrack n) : Except PyErr (RepTrack n) :=
  match t.states.getLast? with
  | none => .error .indexError
  | some st =>
    .ok ⟨(t.states.dropLast.map RepState.gaussian) ++
      [RepState.ensembleUpdate (gen st.state_vector st.covar ensemble_size)
        st.timestamp st.detection]⟩

/-- EnsembleInitiator.initiate over the wrapped tracks. -/
def EnsembleInitiator.initiate {n : ℕ} (gen : MvnRvs n)
    (ensemble_size : ℕ) (tracks : List (SMITrack n)) :
    Except PyErr (List (RepTrack n)) :=
  mapExcept (EnsembleInitiator.convertTrack gen ensemble_size) tracks

/-- ParticleGaussianInitiator (lines 584-624): replace each wrapped
particle track's final state with a GaussianState holding the particle
state's first two moments (track.mean and track.covar, computed by the
external numpy reductions pMean and pCovar) and its timestamp. -/
def ParticleGaussianInitiator.convertTrack {n : ℕ}
    (pMean : RepState n → Matrix (Fin n) (Fin 1) ℚ)
    (pCovar : RepState n → Mat n) (t : RepTrack n) :
    Except PyErr (RepTrack n) :=
  match t.states.getLast? with
  | none => .error .indexError
  | some st =>
    .ok ⟨t.states.dropLast ++
      [RepState.gaussianState (pMean st) (pCovar st) st.timestamp]⟩

/-- ParticleGaussianInitiator.initiate over the wrapped particle tracks. -/
def ParticleGaussianInitiator.initiate {n : ℕ}
    (pMean : RepState n → Matrix (Fin n) (Fin 1) ℚ)
    (pCovar : RepState n → Mat n) (tracks : List (RepTrack n)) :
    Except PyErr (List (RepTrack n)) :=
  mapExcept (ParticleGaussianInitiator.convertTrack pMean pCovar) tracks

/-- Every element of a successful mapExcept comes from converting an
element of the input. -/
theorem mapExcept_mem {α β : Type} (f : α → Except PyErr β) :
    ∀ (l : List α) (out : List β), mapExcept f l = .ok out →
      ∀ y ∈ out, ∃ x ∈ l, f x = .ok y := by
  intro l
  induction l with
  | nil =>
    intro out h y hy
    unfold mapExcept at h
    rw [Except.ok.injEq] at h
    rw [← h] at hy
    exact absurd hy (by simp)
  | cons x xs ih =>
    intro out h y hy
    unfold mapExcept at h
    cases hx : f x with
    | error e => rw [hx] at h; exact absurd h (by simp)
    | ok y0 =>
      rw [hx] at h
      dsimp only [] at h
      cases hrest : mapExcept f xs with
      | error e => rw [hrest] at h; exact absurd h (by simp)
      | ok ys =>
        rw [hrest] at h
        rw [Except.ok.injEq] at h
        rw [← h] at hy
        rcases List.mem_cons.mp hy with hhead | htail
        · exact ⟨x, by simp, by rw [hx, hhead]⟩
        · obtain ⟨x2, hx2, hfx2⟩ := ih ys hrest y htail
          exact ⟨x2, List.mem_cons_of_mem _ hx2, hfx2⟩

/-- A single-point-measurement state records the detection's identity and
timestamp. -/
theorem spm_initiateDet_detection {m n : ℕ}
    (ini : SinglePointMeasurementInitiator m n) (pinv : NpPinv m n)
    (upd : SPMUpdater m n) (d : SMIDet m n) (st : SMIState n)
    (h : ini.initiateDet pinv upd d = .ok (some st)) :
    st.detection = d.did ∧ st.timestamp = d.timestamp := by
  unfold SinglePointMeasurementInitiator.initiateDet at h
  cases hr : ini.resolvedModel d with
  | error e => rw [hr] at h; exact absurd h (by simp)
  | ok mm =>
    rw [hr] at h
    dsimp only [] at h
    cases hk : mm.kind <;> rw [hk] at h <;> dsimp only [] at h
    · rw [Except.ok.injEq, Option.some.injEq] at h
      rw [← h]; exact ⟨rfl, rfl⟩
    · cases hi : mm.inverse_function d.state_vector with
      | none =>
        rw [hi] at h
        cases hs : ini.skip_non_reversible <;>
          rw [hs] at h <;> simp at h
      | some sv =>
        rw [hi] at h
        rw [Except.ok.injEq, Option.some.injEq] at h
        rw [← h]; exact ⟨rfl, rfl⟩
    · cases hs : ini.skip_non_reversible <;> rw [hs] at h <;> simp at h
    · cases hs : ini.skip_non_reversible <;> rw [hs] at h <;> simp at h

/-- Every track of a successful simple-measurement initiation holds
exactly one state, consuming a detection of the input. -/
theorem smi_initiate_single_state {m n : ℕ}
    (ini : SimpleMeasurementInitiator m n) (pinv : NpPinv m n) :
    ∀ (dets : List (SMIDet m n)) (tracks : List (SMITrack n)),
      ini.initiate pinv dets = .ok tracks →
      ∀ t ∈ tracks, t.states.length = 1 ∧
        ∀ s ∈ t.states, s.detection ∈ dets.map (·.did) := by
  intro dets
  induction dets with
  | nil =>
    intro tracks h
    unfold SimpleMeasurementInitiator.initiate at h
    rw [Except.ok.injEq] at h
    rw [← h]
    intro t ht
    exact absurd ht (by simp)
  | cons d rest ih =>
    intro tracks h
    unfold SimpleMeasurementInitiator.initiate at h
    cases hd : ini.initiateDet pinv d with
    | error e => rw [hd] at h; exact absurd h (by simp)
    | ok o =>
      rw [hd] at h
      cases o with
      | none =>
        dsimp only [] at h
        intro t ht
        obtain ⟨hlen, hdet⟩ := ih tracks h t ht
        exact ⟨hlen, fun s hs => by
          have := hdet s hs
          simp only [List.map_cons]
          exact List.mem_cons_of_mem _ this⟩
      | some st =>
        dsimp only [] at h
        cases hrest : ini.initiate pinv rest with
        | error e => rw [hrest] at h; exact absurd h (by simp)
        | ok tracksR =>
          rw [hrest] at h
          rw [Except.ok.injEq] at h
          rw [← h]
          intro t ht
          rcases List.mem_cons.mp ht with hhead | htail
          · subst hhead
            refine ⟨rfl, ?_⟩
            intro s hs
            rcases List.mem_cons.mp hs with hseq | habs
            · subst hseq
              have := (initiateDet_detection ini pinv d s hd).1
              simp [this]
            · exact absurd habs (by simp)
          · obtain ⟨hlen, hdet⟩ := ih tracksR hrest t htail
            exact ⟨hlen, fun s hs => by
              have := hdet s hs
              simp only [List.map_cons]
              exact List.mem_cons_of_mem _ this⟩

/-- Every track of a successful single-point-measurement initiation holds
exactly one state, consuming a detection of the input. -/
theorem spm_initiate_single_state {m n : ℕ}
    (spm : SinglePointMeasurementInitiator m n) (pinv : NpPinv m n)
    (upd2 : SPMUpdater m n) :
    ∀ (dets : List (SMIDet m n)) (tracks : List (SMITrack n)),
      spm.initiate pinv upd2 dets = .ok tracks →
      ∀ t ∈ tracks, t.states.length = 1 ∧
        ∀ s ∈ t.states, s.detection ∈ dets.map (·.did) := by
  intro dets
  induction dets with
  | nil =>
    intro tracks h
    unfold SinglePointMeasurementInitiator.initiate at h
    rw [Except.ok.injEq] at h
    rw [← h]
    intro t ht
    exact absurd ht (by simp)
  | cons d rest ih =>
    intro tracks h
    unfold SinglePointMeasurementInitiator.initiate at h
    cases hd : spm.initiateDet pinv upd2 d with
    | error e => rw [hd] at h; exact absurd h (by simp)
    | ok o =>
      rw [hd] at h
      cases o with
      | none =>
        dsimp only [] at h
        intro t ht
        obtain ⟨hlen, hdet⟩ := ih tracks h t ht
        exact ⟨hlen, fun s hs => by
          have := hdet s hs
          simp only [List.map_cons]
          exact List.mem_cons_of_mem _ this⟩
      | some st =>
        dsimp only [] at h
        cases hrest : spm.initiate pinv upd2 rest with
        | error e => rw [hrest] at h; exact absurd h (by simp)
        | ok tracksR =>
          rw [hrest] at h
          rw [Except.ok.injEq] at h
          rw [← h]
          intro t ht
          rcases List.mem_cons.mp ht with hhead | htail
          · subst hhead
            refine ⟨rfl, ?_⟩
            intro s hs
            rcases List.mem_cons.mp hs with hseq | habs
            · subst hseq
              have := (spm_initiateDet_detection spm pinv upd2 d s hd).1
              simp [this]
            · exact absurd habs (by simp)
          · obtain ⟨hlen, hdet⟩ := ih tracksR hrest t htail
            exact ⟨hlen, fun s hs => by
              have := hdet s hs
              simp only [List.map_cons]
              exact List.mem_cons_of_mem _ this⟩

/-- C8 (amended): every track returned by the single-point,
single-point-measurement and simple measurement initiators contains
exactly one initial state whose detection comes from the input set, and
the representation-converting initiators (particle, Gaussian-mixture,
ASD, ensemble, particle-to-Gaussian), which replace the states of their
wrapped initiator's tracks one for one, return single-state tracks
whenever the wrapped initiator does; the embedding is purely functional,
so the input detections are not mutated. The multi-measurement initiator
is excluded: its confirmed tracks carry every state accumulated while
held. -/
theorem initiator_single_state {m n : ℕ} (upd : SMIDet m n → SMIState n)
    (ini : SimpleMeasurementInitiator m n) (pinv : NpPinv m n)
    (spm : SinglePointMeasurementInitiator m n) (upd2 : SPMUpdater m n)
    (rvs gen : MvnRvs n) (number_particles ensemble_size max_nstep : ℕ)
    (use_fixed_covar : Bool)
    (pMean : RepState n → Matrix (Fin n) (Fin 1) ℚ)
    (pCovar : RepState n → Mat n) (dets : List (SMIDet m n))
    (tracks tracks2 : List (SMITrack n)) (wrapped : List (SMITrack n))
    (pwrapped : List (RepTrack n)) (outGP outASD outENS outPG : List (RepTrack n))
    (h : ini.initiate pinv dets = .ok tracks)
    (h2 : spm.initiate pinv upd2 dets = .ok tracks2)
    (hw : ∀ t ∈ wrapped, t.states.length = 1)
    (hpw : ∀ t ∈ pwrapped, t.states.length = 1)
    (hGP : GaussianParticleInitiator.initiate rvs number_particles
      use_fixed_covar wrapped = .ok outGP)
    (hASD : ASDGaussianInitiator.initiate max_nstep wrapped = .ok outASD)
    (hENS : EnsembleInitiator.initiate gen ensemble_size wrapped = .ok outENS)
    (hPG : ParticleGaussianInitiator.initiate pMean pCovar pwrapped = .ok outPG) :
    (∀ t ∈ SinglePointInitiator.initiate upd dets, t.states.length = 1) ∧
    (∀ t ∈ tracks, t.states.length = 1 ∧
      ∀ s ∈ t.states, s.detection ∈ dets.map (·.did)) ∧
    (∀ t ∈ tracks2, t.states.length = 1 ∧
      ∀ s ∈ t.states, s.detection ∈ dets.map (·.did)) ∧
    (∀ t ∈ outGP, t.states.length = 1) ∧
    (∀ t ∈ GaussianMixtureInitiator.initiate wrapped, t.states.length = 1) ∧
    (∀ t ∈ outASD, t.states.length = 1) ∧
    (∀ t ∈ outENS, t.states.length = 1) ∧
    (∀ t ∈ outPG, t.states.length = 1) := by
  refine ⟨?_, ?_, ?_, ?_, ?_, ?_, ?_, ?_⟩
  · intro t ht
    obtain ⟨d, _, hd⟩ := List.mem_map.mp ht
    rw [← hd]
    rfl
  · exact smi_initiate_single_state ini pinv dets tracks h
  · exact spm_initiate_single_state spm pinv upd2 dets tracks2 h2
  · intro t ht
    obtain ⟨t0, ht0, hconv⟩ := mapExcept_mem _ wrapped outGP hGP t ht
    unfold GaussianParticleInitiator.convertTrack at hconv
    cases hl : t0.states.getLast? with
    | none => rw [hl] at hconv; exact absurd hconv (by simp)
    | some st =>
      rw [hl] at hconv
      rw [Except.ok.injEq] at hconv
      rw [← hconv]
      simp [hw t0 ht0]
  · intro t ht
    obtain ⟨t0, ht0, hd⟩ := List.mem_map.mp ht
    rw [← hd]
    simp [hw t0 ht0]
  · intro t ht
    obtain ⟨t0, ht0, hconv⟩ := mapExcept_mem _ wrapped outASD hASD t ht
    unfold ASDGaussianInitiator.convertTrack at hconv
    cases hl : t0.states.getLast? with
    | none => rw [hl] at hconv; exact absurd hconv (by simp)
    | some st =>
      rw [hl] at hconv
      rw [Except.ok.injEq] at hconv
      rw [← hconv]
      simp [hw t0 ht0]
  · intro t ht
    obtain ⟨t0, ht0, hconv⟩ := mapExcept_mem _ wrapped outENS hENS t ht
    unfold EnsembleInitiator.convertTrack at hconv
    cases hl : t0.states.getLast? with
    | none => rw [hl] at hconv; exact absurd hconv (by simp)
    | some st =>
      rw [hl] at hconv
      rw [Except.ok.injEq] at hconv
      rw [← hconv]
      simp [hw t0 ht0]
  · intro t ht
    obtain ⟨t0, ht0, hconv⟩ := mapExcept_mem _ pwrapped outPG hPG t ht
    unfold ParticleGaussianInitiator.convertTrack at hconv
    cases hl : t0.states.getLast? with
    | none => rw [hl] at hconv; exact absurd hconv (by simp)
    | some st =>
      rw [hl] at hconv
      rw [Except.ok.injEq] at hconv
      rw [← hconv]
      simp [hpw t0 ht0]

/-- Concrete linear measurement model for the initiator witnesses. -/
def c7mm : MModel 1 1 := ⟨.linear, !![1], !![2], [0], fun _ => none, fun _ => !![0]⟩

/-- Concrete initiator with zero diagonal loading. -/
def c7ini : SimpleMeasurementInitiator 1 1 := ⟨!![7], !![5], none, false, 0⟩

/-- Concrete pseudo-inverse collaborator. -/
def c7pinv : NpPinv 1 1 := fun _ => !![1]

/-- Concrete detection carrying the linear model. -/
def c7det : SMIDet 1 1 := ⟨3, !![4], 11, some c7mm⟩

/-- The state the concrete initiation produces. -/
def c7st : SMIState 1 := ⟨!![4], !![2], 11, 3⟩

/-- Concrete evaluation of one initiation step, shared by the initiator
witnesses. -/
theorem c7_initiateDet_eval :
    c7ini.initiateDet c7pinv c7det = .ok (some c7st) := by
  unfold SimpleMeasurementInitiator.initiateDet
    SimpleMeasurementInitiator.resolvedModel
    SimpleMeasurementInitiator.buildState
  dsimp only [c7ini, c7det, c7mm, c7pinv, c7st]
  rw [Except.ok.injEq, Option.some.injEq]
  rw [SMIState.mk.injEq]
  refine ⟨?_, ?_, rfl, rfl⟩
  · ext i j
    fin_cases i; fin_cases j
    simp [zeroRowsVec, Matrix.mul_apply, Fin.sum_univ_one, Matrix.vecHead]
  · ext i j
    fin_cases i; fin_cases j
    simp [zeroRows, Matrix.mul_apply, Fin.sum_univ_one, Matrix.diagonal,
      Matrix.vecHead]

/-- Witness for C7: constructing with diag_load -1 fails, and the state
initiated with diag_load 0 carries exactly the unloaded covariance. -/
theorem diag_load_policy_witness :
    SimpleMeasurementInitiator.init (m := 1) (n := 1) !![7] !![5] none false
      (-1) = .error .valueError ∧
    (∃ (mm : MModel 1 1) (iM : Matrix (Fin 1) (Fin 1) ℚ),
      c7ini.resolvedModel c7det = .ok mm ∧
      c7st.covar = iM * mm.R * iMᵀ + zeroRows c7ini.prior_covar mm.mapping) := by
  have h := diag_load_policy (m := 1) (n := 1) !![7] !![5] none false (-1)
    c7ini c7pinv c7det c7st
  exact ⟨h.1 (by norm_num), h.2.2 rfl c7_initiateDet_eval⟩

/-- Concrete single-point-measurement initiator for the C8 witness. -/
def c8spm : SinglePointMeasurementInitiator 1 1 := ⟨!![7], !![5], none, false⟩

/-- Concrete external updater for the single-point-measurement witness. -/
def c8upd2 : SPMUpdater 1 1 := fun _ _ => (!![1], !![1])

/-- The state the concrete single-point-measurement initiation produces. -/
def c8spmSt : SMIState 1 := ⟨!![1], !![1], 11, 3⟩

/-- Concrete sampler drawing no samples, for the converting witnesses. -/
def c8rvs0 : MvnRvs 1 := fun _ _ _ => []

/-- Wrapped single-state Gaussian track fed to the converting witnesses. -/
def c8wrapped : List (SMITrack 1) := [⟨[c7st]⟩]

/-- The concrete particle-initiator output. -/
def c8outGP : List (RepTrack 1) :=
  [⟨[RepState.particleUpdate [] (1 / ((1 : ℕ) : ℚ)) none 11 3]⟩]

/-- The concrete ASD-initiator output. -/
def c8outASD : List (RepTrack 1) :=
  [⟨[RepState.asdUpdate !![4] !![2] 11 0 3]⟩]

/-- The concrete ensemble-initiator output. -/
def c8outENS : List (RepTrack 1) :=
  [⟨[RepState.ensembleUpdate [] 11 3]⟩]

/-- Wrapped single-state particle track fed to the particle-to-Gaussian
witness. -/
def c8pwrapped : List (RepTrack 1) :=
  [⟨[RepState.gaussianState !![0] !![1] 7]⟩]

/-- Concrete moment computation for the particle-to-Gaussian witness. -/
def c8pMean : RepState 1 → Matrix (Fin 1) (Fin 1) ℚ := fun _ => !![0]

/-- Concrete covariance computation for the particle-to-Gaussian witness. -/
def c8pCovar : RepState 1 → Mat 1 := fun _ => !![1]

/-- The concrete particle-to-Gaussian output. -/
def c8outPG : List (RepTrack 1) :=
  [⟨[RepState.gaussianState !![0] !![1] 7]⟩]

/-- Witness for the amended C8: concrete initiations of every embedded
variant returning one-state tracks, with the simple and
single-point-measurement tracks consuming input detections. -/
theorem initiator_single_state_witness :
    c7ini.initiate c7pinv [c7det] = .ok [⟨[c7st]⟩] ∧
    c8spm.initiate c7pinv c8upd2 [c7det] = .ok [⟨[c8spmSt]⟩] ∧
    (∀ t ∈ SinglePointInitiator.initiate (fun _ => c7st) [c7det],
      t.states.length = 1) ∧
    (∀ t ∈ [(⟨[c7st]⟩ : SMITrack 1)], t.states.length = 1 ∧
      ∀ s ∈ t.states, s.detection ∈ [c7det].map (·.did)) ∧
    (∀ t ∈ [(⟨[c8spmSt]⟩ : SMITrack 1)], t.states.length = 1 ∧
      ∀ s ∈ t.states, s.detection ∈ [c7det].map (·.did)) ∧
    (∀ t ∈ c8outGP, t.states.length = 1) ∧
    (∀ t ∈ GaussianMixtureInitiator.initiate c8wrapped,
      t.states.length = 1) ∧
    (∀ t ∈ c8outASD, t.states.length = 1) ∧
    (∀ t ∈ c8outENS, t.states.length = 1) ∧
    (∀ t ∈ c8outPG, t.states.length = 1) := by
  have hinit : c7ini.initiate c7pinv [c7det] = .ok [⟨[c7st]⟩] := by
    unfold SimpleMeasurementInitiator.initiate
    rw [c7_initiateDet_eval]
    rfl
  have h2 : c8spm.initiate c7pinv c8upd2 [c7det] = .ok [⟨[c8spmSt]⟩] := rfl
  have hw : ∀ t ∈ c8wrapped, t.states.length = 1 := by
    intro t ht
    rw [List.mem_singleton.mp ht]
    rfl
  have hpw : ∀ t ∈ c8pwrapped, t.states.length = 1 := by
    intro t ht
    rw [List.mem_singleton.mp ht]
    rfl
  have h := initiator_single_state (fun _ => c7st) c7ini c7pinv c8spm c8upd2
    c8rvs0 c8rvs0 1 2 0 false c8pMean c8pCovar [c7det] [⟨[c7st]⟩]
    [⟨[c8spmSt]⟩] c8wrapped c8pwrapped c8outGP c8outASD c8outENS c8outPG
    hinit h2 hw hpw rfl rfl rfl rfl
  exact ⟨hinit, h2, h.1, h.2.1, h.2.2.1, h.2.2.2.1, h.2.2.2.2.1,
    h.2.2.2.2.2.1, h.2.2.2.2.2.2.1, h.2.2.2.2.2.2.2⟩

/-! Claim C10: platform attribute proxying to the movement controller. -/

/-- An attribute name: underscore records whether the Python name starts
with an underscore (name.startswith of the source), key identifies the
rest of the name. -/
structure AttrName : Type where
  underscore : Bool
  key : ℕ
deriving DecidableEq

/-- Lookup in an object's attribute table, modelling a successful
Base.__getattribute__ against the object itself. -/
def lookupAttr (attrs : List (AttrName × ℕ)) (name : AttrName) : Option ℕ :=
  match attrs with
  | [] => none
  | (k, v) :: rest => if k = name then some v else lookupAttr rest name

/-- An AttributeError, recording which object's lookup raised it. -/
inductive AttrErr : Type where
  | platformMissing (name : AttrName)
  | movableMissing (name : AttrName)
deriving DecidableEq

/-- A Platform object: its own attribute table and the attribute table of
its movement controller (the movement_controller attribute itself is a
Property and always present). -/
structure PlatformObj : Type where
  attrs : List (AttrName × ℕ)
  movement_controller : List (AttrName × ℕ)

/-- Attribute access on the Movable: its AttributeError names the Movable,
not the Platform. -/
def Movable.getattr (controller : List (AttrName × ℕ)) (name : AttrName) :
    Except AttrErr ℕ :=
  match lookupAttr controller name with
  | some v => .ok v
  | none => .error (.movableMissing name)

/-- Platform.__getattribute__: try the platform's own attribute first; on
AttributeError, underscore-prefixed names re-raise the original error,
other names are proxied to the movement controller, and if that also
raises AttributeError the original (platform) error is raised instead. -/
def Platform.getattribute (p : PlatformObj) (name : AttrName) :
    Except AttrErr ℕ :=
  match lookupAttr p.attrs name with
  | some v => .ok v
  | none =>
    let original_error := AttrErr.platformMissing name
    if name.underscore then .error original_error
    else
      match Movable.getattr p.movement_controller name with
      | .ok v => .ok v
      | .error _ => .error original_error

/-- C10: reading an attribute not defined on the platform itself and whose
name does not start with an underscore returns the movement controller's
attribute of the same name; for underscore-prefixed names, and for names
present on neither object, the AttributeError originally raised by the
platform lookup is raised, never one attributing the name to the Movable
(every error the access produces is the platform's original). -/
theorem platform_attribute_proxy (p : PlatformObj) (name : AttrName) :
    (∀ v, lookupAttr p.attrs name = some v →
      Platform.getattribute p name = .ok v) ∧
    (lookupAttr p.attrs name = none → name.underscore = false →
      ∀ v, lookupAttr p.movement_controller name = some v →
        Platform.getattribute p name = .ok v) ∧
    (lookupAttr p.attrs name = none → name.underscore = true →
      Platform.getattribute p name = .error (.platformMissing name)) ∧
    (lookupAttr p.attrs name = none →
      lookupAttr p.movement_controller name = none →
      Platform.getattribute p name = .error (.platformMissing name)) ∧
    (∀ e, Platform.getattribute p name = .error e →
      e = .platformMissing name) := by
  refine ⟨?_, ?_, ?_, ?_, ?_⟩
  · intro v hv
    unfold Platform.getattribute
    rw [hv]
  · intro hp hu v hv
    unfold Platform.getattribute
    rw [hp]
    dsimp only []
    rw [hu]
    unfold Movable.getattr
    rw [hv]
    simp
  · intro hp hu
    unfold Platform.getattribute
    rw [hp]
    dsimp only []
    rw [hu]
    simp
  · intro hp hm
    unfold Platform.getattribute
    rw [hp]
    dsimp only []
    unfold Movable.getattr
    rw [hm]
    cases name.underscore <;> rfl
  · intro e he
    unfold Platform.getattribute at he
    cases hp : lookupAttr p.attrs name with
    | some v => rw [hp] at he; exact absurd he (by simp)
    | none =>
      rw [hp] at he
      dsimp only [] at he
      cases hu : name.underscore <;> rw [hu] at he
      · rw [if_neg (by simp)] at he
        cases hm : Movable.getattr p.movement_controller name with
        | ok v => rw [hm] at he; exact absurd he (by simp)
        | error e2 =>
          rw [hm] at he
          rw [Except.error.injEq] at he
          exact he.symm
      · rw [if_pos rfl] at he
        rw [Except.error.injEq] at he
        exact he.symm

/-- Concrete platform for the C10 witness: position on the platform,
velocity only on the controller. -/
def c10p : PlatformObj :=
  ⟨[(⟨false, 1⟩, 100)], [(⟨false, 2⟩, 200), (⟨true, 3⟩, 300)]⟩

/-- Witness for C10: the four access behaviours at concrete names. -/
theorem platform_attribute_proxy_witness :
    Platform.getattribute c10p ⟨false, 1⟩ = .ok 100 ∧
    Platform.getattribute c10p ⟨false, 2⟩ = .ok 200 ∧
    Platform.getattribute c10p ⟨true, 3⟩ =
      .error (.platformMissing ⟨true, 3⟩) ∧
    Platform.getattribute c10p ⟨false, 4⟩ =
      .error (.platformMissing ⟨false, 4⟩) :=
  ⟨(platform_attribute_proxy c10p ⟨false, 1⟩).1 100 (by decide),
   (platform_attribute_proxy c10p ⟨false, 2⟩).2.1 (by decide) rfl 200 (by decide),
   (platform_attribute_proxy c10p ⟨true, 3⟩).2.2.1 (by decide) rfl,
   (platform_attribute_proxy c10p ⟨false, 4⟩).2.2.2.1 (by decide) (by decide)⟩

/-! Claim C6: particle-updater weight totals (spec-modelled: the particle
updater implementation, stonesoup/updater/particle.py, is not under src/;
only its tests are). -/

/-- Sum of pointwise quotients. -/
theorem sum_map_div (l : List ℚ) (s : ℚ) :
    (l.map (fun w => w / s)).sum = l.sum / s := by
  induction l with
  | nil => simp
  | cons x xs ih => simp [ih, add_div]

/-- Sum of scaled pointwise quotients. -/
theorem sum_map_mul_div (l : List ℚ) (p s : ℚ) :
    (l.map (fun w => p * (w / s))).sum = p * (l.sum / s) := by
  induction l with
  | nil => simp
  | cons x xs ih =>
    simp only [List.map_cons, List.sum_cons, ih, add_div]
    ring

/-- Modelled from the spec: the standard particle updater computes
importance weights from the measurement likelihood of each particle under
the measurement model and renormalises them (spec sections 4.3 and 8: the
updated weights sum to 1). -/
def ParticleUpdater.updatedWeights (prior likelihood : List ℚ) : List ℚ :=
  let unnormalised := List.zipWith (· * ·) prior likelihood
  unnormalised.map (fun w => w / unnormalised.sum)

/-- Modelled from the spec: the Bernoulli particle updater outputs particle
weights renormalised to sum to the posterior existence probability (spec
sections 4.3 and 8). -/
def BernoulliParticleUpdater.updatedWeights (existence_probability : ℚ)
    (ws : List ℚ) : List ℚ :=
  ws.map (fun w => existence_probability * (w / ws.sum))

/-- Modelled from the spec: the SMC-PHD updater updates each particle
weight across the missed-detection hypothesis and one hypothesis per
detection, using the detection probability and the clutter intensity. -/
def SMCPHDUpdater.updatedWeights (prob_detect clutter_intensity : ℚ)
    (prior : List ℚ) (likelihoods : List (List ℚ)) : List ℚ :=
  prior.mapIdx (fun i w =>
    w * ((1 - prob_detect) + (likelihoods.map (fun g =>
      prob_detect * g.getD i 0 /
        (clutter_intensity +
          (List.zipWith (fun gj wj => prob_detect * gj * wj) g prior).sum))).sum))

/-- Modelled from the spec: the estimated number of targets is the integral
(sum) of the updated PHD weights. -/
def SMCPHDUpdater.num_targets (prob_detect clutter_intensity : ℚ)
    (prior : List ℚ) (likelihoods : List (List ℚ)) : ℚ :=
  (SMCPHDUpdater.updatedWeights prob_detect clutter_intensity prior
    likelihoods).sum

/-- Modelled from the spec: resampling to a fixed number of samples spreads
the total PHD mass uniformly. -/
def SMCPHDUpdater.resampledWeights (num_samples : ℕ) (total : ℚ) : List ℚ :=
  List.replicate num_samples (total / num_samples)

/-- C6 (spec-modelled): the standard particle updater's weights sum to 1,
the Bernoulli particle updater's weights sum to the posterior existence
probability, and the SMC-PHD updater's resampled weights sum to the
estimated number of targets (exactly, over the rationals; the tests assert
these totals within floating tolerance about 1e-5). -/
theorem particle_weight_totals (prior likelihood : List ℚ)
    (existence_probability : ℚ) (ws : List ℚ)
    (prob_detect clutter_intensity : ℚ) (phd_prior : List ℚ)
    (likelihoods : List (List ℚ)) (num_samples : ℕ) :
    ((List.zipWith (· * ·) prior likelihood).sum ≠ 0 →
      (ParticleUpdater.updatedWeights prior likelihood).sum = 1) ∧
    (ws.sum ≠ 0 →
      (BernoulliParticleUpdater.updatedWeights existence_probability ws).sum =
        existence_probability) ∧
    (num_samples ≠ 0 →
      (SMCPHDUpdater.resampledWeights num_samples
        (SMCPHDUpdater.num_targets prob_detect clutter_intensity phd_prior
          likelihoods)).sum =
      SMCPHDUpdater.num_targets prob_detect clutter_intensity phd_prior
        likelihoods) := by
  refine ⟨?_, ?_, ?_⟩
  · intro h
    unfold ParticleUpdater.updatedWeights
    dsimp only []
    rw [sum_map_div]
    exact div_self h
  · intro h
    unfold BernoulliParticleUpdater.updatedWeights
    rw [sum_map_mul_div, div_self h, mul_one]
  · intro h
    unfold SMCPHDUpdater.resampledWeights
    rw [List.sum_replicate, nsmul_eq_mul]
    rw [mul_div_cancel₀]
    exact Nat.cast_ne_zero.mpr h

/-- Witness for C6: the three totals at concrete weights. -/
theorem particle_weight_totals_witness :
    (ParticleUpdater.updatedWeights [1/2, 1/2] [1, 1]).sum = 1 ∧
    (BernoulliParticleUpdater.updatedWeights (3/4) [2]).sum = 3/4 ∧
    (SMCPHDUpdater.resampledWeights 3
      (SMCPHDUpdater.num_targets (9/10) (1/100000) [1/2, 1/2] [[1, 1]])).sum =
    SMCPHDUpdater.num_targets (9/10) (1/100000) [1/2, 1/2] [[1, 1]] := by
  have h := particle_weight_totals [1/2, 1/2] [1, 1] (3/4) [2] (9/10)
    (1/100000) [1/2, 1/2] [[1, 1]] 3
  refine ⟨h.1 (by norm_num [List.zipWith]), h.2.1 (by norm_num),
    h.2.2 (by norm_num)⟩

end StoneSoup
